import Mathlib

/-
A shallow embedding of the type-system core of the machship/graphql Go
library (the type definition file and the directives file), together with
theorems about its configuration factories, lazy field materialization,
enum coercion, the compiled-in directive set and response paths.

Modelling conventions:
* Go `any` values that flow through the type system (enum internal values,
  default values, response-path keys) are modelled by the inductive `GoVal`.
* Go `error` values are modelled by their message (`GoErr`); a nilable
  `error` variable is an `Option GoErr`.
* Go nil pointers and nil interface values are modelled with `Option`.
* Code that in Go can panic (dereference of a possibly-nil pointer) is
  translated into the `Except GoPanic` monad, with `goDeref` marking every
  pointer dereference; code with no potentially-panicking operation is
  translated as a total function.
* Go mutation of a receiver (lazy caches) is translated into explicit state
  passing: a method returns its result, the updated receiver, and the number
  of configuration thunks it invoked during the call.
* User-supplied callbacks that the modelled code only ever compares against
  nil (resolvers, isTypeOf, resolveType) are represented by an uninterpreted
  unit marker; callbacks the modelled code invokes (scalar coercion
  functions, configuration thunks) are real Lean functions.
-/

namespace GraphQL

/-- Go interface values (`any`) appearing in the embedded code: the untyped
nil, booleans, integers and strings. -/
inductive GoVal where
  | vnil
  | vbool (b : Bool)
  | vint (n : Int)
  | vstr (s : String)
  deriving DecidableEq, Repr

/-- Go `error` values; only the message is modelled. -/
abbrev GoErr := String

/-- A Go runtime panic; the embedded code can only panic by dereferencing a
nil pointer. -/
inductive GoPanic where
  | nilDereference
  deriving DecidableEq, Repr

/-- Dereference of a Go pointer: panics exactly when the pointer is nil. -/
def goDeref : Option α → Except GoPanic α
  | none => .error GoPanic.nilDereference
  | some a => .ok a

/-- Modelled from the spec: the helper `invariant(cond, msg) error` lives in
a utility file that is not among the provided sources. Per the spec, "each
factory returns a type carrying an embedded error if configuration is
invalid", so `invariant` yields an error exactly when its condition fails. -/
def invariant (cond : Bool) (msg : String) : Option GoErr :=
  if cond then none else some msg

/-- Modelled from the spec: `invariantf` is the formatted variant of
`invariant`; the already-formatted message is passed as a plain string. -/
def invariantf (cond : Bool) (msg : String) : Option GoErr :=
  if cond then none else some msg

/-- First character class of the name pattern, `[_a-zA-Z]`. -/
def isNameStartChar (c : Char) : Bool :=
  c = '_' || (c ≥ 'a' && c ≤ 'z') || (c ≥ 'A' && c ≤ 'Z')

/-- Later character class of the name pattern, `[_a-zA-Z0-9]`. -/
def isNameChar (c : Char) : Bool :=
  isNameStartChar c || (c ≥ '0' && c ≤ '9')

/-- The compiled regular expression `NameRegExp`, anchored on both sides:
a name matches iff it is non-empty, starts with `[_a-zA-Z]` and continues
with `[_a-zA-Z0-9]*`. -/
def nameRegExpMatches (s : String) : Bool :=
  match s.data with
  | [] => false
  | c :: cs => isNameStartChar c && cs.all isNameChar

/-- `assertValidName` returns an error iff the name does not match
`NameRegExp`. -/
def assertValidName (name : String) : Option GoErr :=
  invariantf (nameRegExpMatches name)
    ("Names must match /^[_a-zA-Z][_a-zA-Z0-9]*$/ but \"" ++ name ++ "\" does not.")

/-- Go map assignment `m[k] = v`: replaces the binding of `k` if present,
otherwise appends it. Go maps are modelled as association lists; the source
iterates maps in an unspecified order, which the list order stands in for. -/
def mapInsert [DecidableEq κ] : List (κ × β) → κ → β → List (κ × β)
  | [], k, v => [(k, v)]
  | (k', v') :: rest, k, v =>
    if k' = k then (k, v) :: rest else (k', v') :: mapInsert rest k v

/-- Go map read `m[k]`: the value bound to `k`, if any. -/
def mapLookup [DecidableEq κ] : List (κ × β) → κ → Option β
  | [], _ => none
  | (k', v') :: rest, k => if k' = k then some v' else mapLookup rest k

/-- An argument of an applied directive. -/
structure DirectiveArgument where
  Name : String := ""
  Value : GoVal := GoVal.vnil
  deriving DecidableEq, Repr

/-- A directive that has been applied to a schema element (pure metadata). -/
structure AppliedDirective where
  Name : String := ""
  Description : String := ""
  Args : List DirectiveArgument := []
  deriving DecidableEq, Repr

/-- AST literal values, as far as the type-system file inspects them
(`Enum.ParseLiteral` matches on enum values; scalar `parseLiteral`
callbacks receive the value opaquely). -/
inductive AstValue where
  | intValue (v : String)
  | floatValue (v : String)
  | stringValue (v : String)
  | booleanValue (v : Bool)
  | enumValue (v : String)
  deriving DecidableEq, Repr

/-- Function type for serializing a scalar value. -/
def SerializeFn := GoVal → GoVal

/-- Function type for parsing an input value of a scalar. -/
def ParseValueFn := GoVal → GoVal

/-- Function type for parsing an AST literal of a scalar. -/
def ParseLiteralFn := AstValue → GoVal

/-- Options for creating a new scalar; nil function fields are `none`. -/
structure ScalarConfig where
  Name : String := ""
  Description : String := ""
  Serialize : Option SerializeFn := none
  ParseValue : Option ParseValueFn := none
  ParseLiteral : Option ParseLiteralFn := none
  Directives : List AppliedDirective := []

/-- Scalar type definition. The zero value (Go `&Scalar{}`) has empty
strings, an all-nil config and a nil error. -/
structure Scalar where
  PrivateName : String := ""
  PrivateDescription : String := ""
  scalarConfig : ScalarConfig := {}
  err : Option GoErr := none
  directives : List AppliedDirective := []

/-- `NewScalar` validates the configuration, recording any problem in the
returned scalar's `err` field; no operation in its body can panic. -/
def NewScalar (config : ScalarConfig) : Scalar :=
  match invariant (config.Name != "") "Type must be named." with
  | some err => { err := some err }
  | none =>
  match assertValidName config.Name with
  | some err => { err := some err }
  | none =>
  let st : Scalar :=
    { PrivateName := config.Name, PrivateDescription := config.Description }
  match invariantf config.Serialize.isSome
      (config.Name ++ " must provide \"serialize\" function. If this custom Scalar is also used as an input type, ensure \"parseValue\" and \"parseLiteral\" functions are also provided.") with
  | some err => { st with err := some err }
  | none =>
  if config.ParseValue.isSome || config.ParseLiteral.isSome then
    match invariantf (config.ParseValue.isSome && config.ParseLiteral.isSome)
        (config.Name ++ " must provide both \"parseValue\" and \"parseLiteral\" functions.") with
    | some err => { st with err := some err }
    | none => { st with scalarConfig := config }
  else
    { st with scalarConfig := config }

/-- `Serialize` falls back to the identity when no function is configured. -/
def Scalar.Serialize (st : Scalar) (value : GoVal) : GoVal :=
  match st.scalarConfig.Serialize with
  | none => value
  | some f => f value

/-- `ParseValue` falls back to the identity when no function is configured. -/
def Scalar.ParseValue (st : Scalar) (value : GoVal) : GoVal :=
  match st.scalarConfig.ParseValue with
  | none => value
  | some f => f value

/-- `ParseLiteral` returns nil when no function is configured. -/
def Scalar.ParseLiteral (st : Scalar) (valueAST : AstValue) : GoVal :=
  match st.scalarConfig.ParseLiteral with
  | none => GoVal.vnil
  | some f => f valueAST

/-- The embedded error of a scalar. -/
def Scalar.Error (st : Scalar) : Option GoErr := st.err

/-- Configuration of a single enum value. -/
structure EnumValueConfig where
  Value : GoVal := GoVal.vnil
  DeprecationReason : String := ""
  Description : String := ""
  Directives : List AppliedDirective := []
  deriving DecidableEq, Repr

/-- `EnumValueConfigMap`: a Go map from value names to possibly-nil
`*EnumValueConfig` pointers. -/
abbrev EnumValueConfigMap := List (String × Option EnumValueConfig)

/-- Options for creating a new enum. -/
structure EnumConfig where
  Name : String := ""
  Values : EnumValueConfigMap := []
  Description : String := ""
  Directives : List AppliedDirective := []
  deriving DecidableEq, Repr

/-- A fully defined enum value. -/
structure EnumValueDefinition where
  Name : String := ""
  Value : GoVal := GoVal.vnil
  DeprecationReason : String := ""
  Description : String := ""
  deriving DecidableEq, Repr

/-- Enum type definition. The write-once lookup caches of the source
(`valuesLookup`, `nameLookup`) are deterministic functions of `values` and
are recomputed on demand here instead of being stored. -/
structure Enum where
  PrivateName : String := ""
  PrivateDescription : String := ""
  enumConfig : EnumConfig := {}
  values : List EnumValueDefinition := []
  err : Option GoErr := none
  directives : List AppliedDirective := []
  deriving DecidableEq, Repr

/-- The loop of `defineEnumValues`. Each entry must be a non-nil config with
a valid name; a nil internal value is replaced by the value's own name. The
dereference of the entry pointer happens only after the nil check, which is
what `goDeref` makes explicit. -/
def defineEnumValuesLoop (gtStr : String) :
    EnumValueConfigMap → List EnumValueDefinition →
    Except GoPanic (List EnumValueDefinition × Option GoErr)
  | [], values => .ok (values, none)
  | (valueName, valueConfig?) :: rest, values =>
    match invariantf valueConfig?.isSome
        (gtStr ++ "." ++ valueName ++ " must refer to an object with a \"value\" key representing an internal value but got: nil.") with
    | some err => .ok (values, some err)
    | none =>
    match assertValidName valueName with
    | some err => .ok (values, some err)
    | none =>
    match goDeref valueConfig? with
    | .error p => .error p
    | .ok valueConfig =>
      let value0 : EnumValueDefinition :=
        { Name := valueName, Value := valueConfig.Value,
          DeprecationReason := valueConfig.DeprecationReason,
          Description := valueConfig.Description }
      let value :=
        if value0.Value = GoVal.vnil then
          { value0 with Value := GoVal.vstr valueName }
        else value0
      defineEnumValuesLoop gtStr rest (values ++ [value])

/-- `defineEnumValues`: the value map must be non-empty, then each entry is
processed in order. -/
def Enum.defineEnumValues (gt : Enum) (valueMap : EnumValueConfigMap) :
    Except GoPanic (List EnumValueDefinition × Option GoErr) :=
  match invariantf (valueMap.length > 0)
      (gt.PrivateName ++ " values must be an object with value names as keys.") with
  | some err => .ok ([], some err)
  | none => defineEnumValuesLoop gt.PrivateName valueMap []

/-- `NewEnum` stores the config, validates the name and defines the values;
the source's trailing `if gt.err != nil return gt; return gt` collapses to a
single return. -/
def NewEnum (config : EnumConfig) : Except GoPanic Enum :=
  let gt : Enum := { enumConfig := config }
  match assertValidName config.Name with
  | some err => .ok { gt with err := some err }
  | none =>
  let gt := { gt with
    PrivateName := config.Name
    PrivateDescription := config.Description
    directives := config.Directives }
  match gt.defineEnumValues config.Values with
  | .error p => .error p
  | .ok (values, err) => .ok { gt with values := values, err := err }

/-- The defined values of an enum. -/
def Enum.Values (gt : Enum) : List EnumValueDefinition := gt.values

/-- `getValueLookup`: internal value to definition, built by inserting every
value in order (a later duplicate internal value overwrites an earlier
one). -/
def Enum.getValueLookup (gt : Enum) : List (GoVal × EnumValueDefinition) :=
  gt.Values.foldl (fun acc value => mapInsert acc value.Value value) []

/-- `getNameLookup`: value name to definition, built by inserting every
value in order. -/
def Enum.getNameLookup (gt : Enum) : List (String × EnumValueDefinition) :=
  gt.Values.foldl (fun acc value => mapInsert acc value.Name value) []

/-- `Serialize` maps an internal value to its name, or nil when the value
does not belong to the enum. The source's reflect-based unwrapping of
pointer arguments is not modelled, since `GoVal` has no pointers. -/
def Enum.Serialize (gt : Enum) (value : GoVal) : GoVal :=
  match mapLookup gt.getValueLookup value with
  | some enumValue => GoVal.vstr enumValue.Name
  | none => GoVal.vnil

/-- `ParseValue` maps a value name (given as a string; the source also
accepts `*string`, which `GoVal` cannot express) to its internal value, and
returns nil for non-strings and undefined names. -/
def Enum.ParseValue (gt : Enum) (value : GoVal) : GoVal :=
  match value with
  | GoVal.vstr v =>
    match mapLookup gt.getNameLookup v with
    | some enumValue => enumValue.Value
    | none => GoVal.vnil
  | _ => GoVal.vnil

/-- `ParseLiteral` accepts only enum-value AST literals naming a defined
value. -/
def Enum.ParseLiteral (gt : Enum) (valueAST : AstValue) : GoVal :=
  match valueAST with
  | AstValue.enumValue v =>
    match mapLookup gt.getNameLookup v with
    | some enumValue => enumValue.Value
    | none => GoVal.vnil
  | _ => GoVal.vnil

/-- The embedded error of an enum. -/
def Enum.Error (gt : Enum) : Option GoErr := gt.err

/-- Marker for a user-supplied `IsTypeOfFn`; the embedded code only ever
compares it with nil, never calls it. -/
abbrev IsTypeOfFn := Unit

/-- Marker for a user-supplied `ResolveTypeFn`; the embedded code only ever
compares it with nil, never calls it. -/
abbrev ResolveTypeFn := Unit

/-- Marker for a user-supplied `FieldResolveFn` (resolve/subscribe); the
embedded code copies it around but never calls it. -/
abbrev FieldResolveFn := Unit

/-
The Go type graph is cyclic (an object's fields mention types which mention
objects), so the node structures are first defined parametrically in the
type `t` of type references and then tied together by the nested inductive
`GType` below. A Go `Type`/`Output`/`Input` interface variable holding nil
is `none : Option GType`.
-/

/-- `ArgumentConfig`: configuration of one field argument. -/
structure ArgumentConfigS (t : Type) where
  Type' : Option t := none
  DefaultValue : GoVal := GoVal.vnil
  Description : String := ""

/-- `Field`: one entry of a `Fields` configuration map. In Go the `Type`
field is declared as the `Output` interface, which every named type of the
library satisfies structurally, including `*InputObject` (it has all five
methods), so the reference is an arbitrary type. -/
structure FieldS (t : Type) where
  Name : String := ""
  Type' : Option t := none
  Args : List (String × Option (ArgumentConfigS t)) := []
  Resolve : Option FieldResolveFn := none
  Subscribe : Option FieldResolveFn := none
  DeprecationReason : String := ""
  Description : String := ""
  Directives : List AppliedDirective := []

/-- `Argument`: a defined field argument. -/
structure ArgumentS (t : Type) where
  PrivateName : String := ""
  Type' : Option t := none
  DefaultValue : GoVal := GoVal.vnil
  PrivateDescription : String := ""

/-- `FieldDefinition`: a materialized field. -/
structure FieldDefinitionS (t : Type) where
  Name : String := ""
  Description : String := ""
  Type' : Option t := none
  Args : List (ArgumentS t) := []
  Resolve : Option FieldResolveFn := none
  Subscribe : Option FieldResolveFn := none
  DeprecationReason : String := ""
  Directives : List AppliedDirective := []

/-- The dynamic type of an `ObjectConfig.Fields` / `InterfaceConfig.Fields`
value (declared `any` in Go): a direct map, a `FieldsThunk`, a
`FieldsErrThunk`, or nil. The switch in the source has no default case, so
any other dynamic type behaves exactly like nil (the collected map stays
nil); `nilCfg` covers both. -/
inductive FieldsCfgS (t : Type) where
  | fieldsMap (m : List (String × Option (FieldS t)))
  | thunk (f : Unit → List (String × Option (FieldS t)))
  | errThunk (f : Unit → Except GoErr (List (String × Option (FieldS t))))
  | nilCfg

/-- `InterfaceConfig`. -/
structure InterfaceConfigS (t : Type) where
  Name : String := ""
  Fields : FieldsCfgS t := FieldsCfgS.nilCfg
  ResolveType : Option ResolveTypeFn := none
  Description : String := ""
  Directives : List AppliedDirective := []

/-- `Interface` type definition with its lazy field cache. -/
structure InterfaceS (t : Type) where
  PrivateName : String := ""
  PrivateDescription : String := ""
  ResolveType : Option ResolveTypeFn := none
  typeConfig : InterfaceConfigS t := {}
  initialisedFields : Bool := false
  fields : Option (List (String × FieldDefinitionS t)) := none
  err : Option GoErr := none
  directives : List AppliedDirective := []

/-- The dynamic type of an `ObjectConfig.Interfaces` value: a slice of
possibly-nil interface pointers, an `InterfacesThunk`, an
`InterfacesErrThunk`, nil, or a value of any other dynamic type (which the
switch's default case reports as an error). -/
inductive InterfacesCfgS (t : Type) where
  | ifaceList (l : List (Option (InterfaceS t)))
  | thunk (f : Unit → List (Option (InterfaceS t)))
  | errThunk (f : Unit → Except GoErr (List (Option (InterfaceS t))))
  | nilCfg
  | otherCfg

/-- `ObjectConfig`. -/
structure ObjectConfigS (t : Type) where
  Name : String := ""
  Interfaces : InterfacesCfgS t := InterfacesCfgS.nilCfg
  Fields : FieldsCfgS t := FieldsCfgS.nilCfg
  IsTypeOf : Option IsTypeOfFn := none
  Description : String := ""
  Directives : List AppliedDirective := []

/-- `Object` type definition with its lazy field and interface caches. -/
structure ObjectS (t : Type) where
  PrivateName : String := ""
  PrivateDescription : String := ""
  IsTypeOf : Option IsTypeOfFn := none
  typeConfig : ObjectConfigS t := {}
  initialisedFields : Bool := false
  fields : Option (List (String × FieldDefinitionS t)) := none
  initialisedInterfaces : Bool := false
  interfaces : Option (List (InterfaceS t)) := none
  err : Option GoErr := none
  directives : List AppliedDirective := []

/-- The dynamic type of a `UnionConfig.Types` value: a slice of
possibly-nil object pointers, a `UnionTypesThunk`, a `UnionTypesErrThunk`,
nil, or any other dynamic type (reported as an error by the default
case). -/
inductive UnionTypesCfgS (t : Type) where
  | objList (l : List (Option (ObjectS t)))
  | thunk (f : Unit → List (Option (ObjectS t)))
  | errThunk (f : Unit → Except GoErr (List (Option (ObjectS t))))
  | nilCfg
  | otherCfg

/-- `UnionConfig`. -/
structure UnionConfigS (t : Type) where
  Name : String := ""
  Types : UnionTypesCfgS t := UnionTypesCfgS.nilCfg
  ResolveType : Option ResolveTypeFn := none
  Description : String := ""
  Directives : List AppliedDirective := []

/-- `Union` type definition with its lazy member cache (`initalizedTypes`
keeps the source's spelling). -/
structure UnionS (t : Type) where
  PrivateName : String := ""
  PrivateDescription : String := ""
  ResolveType : Option ResolveTypeFn := none
  typeConfig : UnionConfigS t := {}
  initalizedTypes : Bool := false
  types : Option (List (ObjectS t)) := none
  err : Option GoErr := none
  directives : List AppliedDirective := []

/-- `InputObjectFieldConfig`. -/
structure InputObjectFieldConfigS (t : Type) where
  Type' : Option t := none
  DefaultValue : GoVal := GoVal.vnil
  Description : String := ""
  Directives : List AppliedDirective := []

/-- `InputObjectField`. -/
structure InputObjectFieldS (t : Type) where
  PrivateName : String := ""
  Type' : Option t := none
  DefaultValue : GoVal := GoVal.vnil
  PrivateDescription : String := ""
  Directives : List AppliedDirective := []

/-- The dynamic type of an `InputObjectConfig.Fields` value; as for
`FieldsCfgS`, the switch has no default case, so `nilCfg` stands for nil
and for any unrecognized dynamic type alike. -/
inductive InputFieldsCfgS (t : Type) where
  | fieldsMap (m : List (String × Option (InputObjectFieldConfigS t)))
  | thunk (f : Unit → List (String × Option (InputObjectFieldConfigS t)))
  | errThunk (f : Unit → Except GoErr (List (String × Option (InputObjectFieldConfigS t))))
  | nilCfg

/-- `InputObjectConfig`. -/
structure InputObjectConfigS (t : Type) where
  Name : String := ""
  Fields : InputFieldsCfgS t := InputFieldsCfgS.nilCfg
  Description : String := ""
  Directives : List AppliedDirective := []

/-- `InputObject` type definition with its lazy field cache. -/
structure InputObjectS (t : Type) where
  PrivateName : String := ""
  PrivateDescription : String := ""
  typeConfig : InputObjectConfigS t := {}
  fields : Option (List (String × InputObjectFieldS t)) := none
  init : Bool := false
  err : Option GoErr := none
  directives : List AppliedDirective := []

set_option genSizeOfSpec false in
set_option maxHeartbeats 1000000 in
/-- A GraphQL type: one of the eight kinds. `list` and `nonNull` carry the
two fields of the Go `List` / `NonNull` structs (`OfType`, `err`) inline. -/
inductive GType where
  | scalar (s : Scalar)
  | object (o : ObjectS GType)
  | iface (i : InterfaceS GType)
  | union (u : UnionS GType)
  | enum (e : Enum)
  | inputObject (io : InputObjectS GType)
  | list (OfType : Option GType) (err : Option GoErr)
  | nonNull (OfType : Option GType) (err : Option GoErr)

/-- The object type with references tied to `GType`. -/
abbrev Object := ObjectS GType

/-- The interface type with references tied to `GType`. -/
abbrev Interface := InterfaceS GType

/-- The union type with references tied to `GType`. -/
abbrev Union := UnionS GType

/-- The input-object type with references tied to `GType`. -/
abbrev InputObject := InputObjectS GType

/-- `Fields`: a Go map from field names to possibly-nil `*Field`. -/
abbrev Fields := List (String × Option (FieldS GType))

/-- `FieldDefinitionMap`. -/
abbrev FieldDefinitionMap := List (String × FieldDefinitionS GType)

/-- `ObjectConfig` over `GType`. -/
abbrev ObjectConfig := ObjectConfigS GType

/-- `InterfaceConfig` over `GType`. -/
abbrev InterfaceConfig := InterfaceConfigS GType

/-- `UnionConfig` over `GType`. -/
abbrev UnionConfig := UnionConfigS GType

/-- `InputObjectConfig` over `GType`. -/
abbrev InputObjectConfig := InputObjectConfigS GType

/-- `InputObjectConfigFieldMap`. -/
abbrev InputObjectConfigFieldMap := List (String × Option (InputObjectFieldConfigS GType))

/-- `InputObjectFieldMap`. -/
abbrev InputObjectFieldMap := List (String × InputObjectFieldS GType)

/-- `FieldConfigArgument`: a Go map from argument names to possibly-nil
`*ArgumentConfig`. -/
abbrev FieldConfigArgument := List (String × Option (ArgumentConfigS GType))

/-- The `Error()` method of the `Type` interface, dispatched over the eight
kinds. -/
def GType.Error : GType → Option GoErr
  | .scalar s => s.err
  | .object o => o.err
  | .iface i => i.err
  | .union u => u.err
  | .enum e => e.err
  | .inputObject io => io.err
  | .list _ e => e
  | .nonNull _ e => e

/-- The `Name()` method of the named kinds (wrappers format their inner
type; only named types occur where this is used). -/
def GType.NameOf : GType → String
  | .scalar s => s.PrivateName
  | .object o => o.PrivateName
  | .iface i => i.PrivateName
  | .union u => u.PrivateName
  | .enum e => e.PrivateName
  | .inputObject io => io.PrivateName
  | .list _ _ => ""
  | .nonNull _ _ => ""

/-- `GetNamed` on a single type: strip `List` and `NonNull` wrappers; a nil
`OfType` propagates as a nil result (the Go loop's type switch on a nil
interface hits the default case and returns it). -/
def GType.getNamedT : GType → Option GType
  | .list ofType _ =>
    (match ofType with
     | none => none
     | some t => t.getNamedT)
  | .nonNull ofType _ =>
    (match ofType with
     | none => none
     | some t => t.getNamedT)
  | t => some t

/-- `GetNamed` returns the unmodified named type of the given type. -/
def GetNamed : Option GType → Option GType
  | none => none
  | some t => t.getNamedT

/-- `IsOutputType`: the named type is a Scalar, Object, Interface, Union or
Enum. -/
def IsOutputType (ttype : Option GType) : Bool :=
  match GetNamed ttype with
  | some (.scalar _) => true
  | some (.object _) => true
  | some (.iface _) => true
  | some (.union _) => true
  | some (.enum _) => true
  | _ => false

/-- `IsInputType`: the named type is a Scalar, Enum or InputObject. -/
def IsInputType (ttype : Option GType) : Bool :=
  match GetNamed ttype with
  | some (.scalar _) => true
  | some (.enum _) => true
  | some (.inputObject _) => true
  | _ => false

/-- `NewObject` validates the name and stores the configuration; fields and
interfaces stay uninitialized. On an invalid name the zero-valued object
(whose config is the zero config) is returned with the error embedded. -/
def NewObject (config : ObjectConfig) : Object :=
  let objectType : Object := {}
  match invariant (config.Name != "") "Type must be named." with
  | some err => { objectType with err := some err }
  | none =>
  match assertValidName config.Name with
  | some err => { objectType with err := some err }
  | none =>
  { objectType with
    PrivateName := config.Name
    PrivateDescription := config.Description
    IsTypeOf := config.IsTypeOf
    typeConfig := config
    directives := config.Directives }

/-- The argument loop of `defineFieldMap`: each argument name must be
valid, each `*ArgumentConfig` non-nil with a non-nil type. On the first
failure the error is returned and the remaining arguments are dropped. -/
def defineFieldArgsLoop (ttypeStr fieldName : String) :
    FieldConfigArgument → List (ArgumentS GType) →
    List (ArgumentS GType) × Option GoErr
  | [], args => (args, none)
  | (argName, arg?) :: rest, args =>
    match assertValidName argName with
    | some err => (args, some err)
    | none =>
    match arg? with
    | none =>
      (args, invariantf false
        (ttypeStr ++ "." ++ fieldName ++ " args must be an object with argument names as keys."))
    | some arg =>
      match arg.Type' with
      | none =>
        (args, invariantf false
          (ttypeStr ++ "." ++ fieldName ++ "(" ++ argName ++ ":) argument type must be Input Type but got: nil."))
      | some _ =>
        defineFieldArgsLoop ttypeStr fieldName rest
          (args ++ [{ PrivateName := argName, PrivateDescription := arg.Description,
                      Type' := arg.Type', DefaultValue := arg.DefaultValue }])

/-- The field loop of `defineFieldMap`: nil fields are skipped, a field's
type must be non-nil and itself error-free (the source's output-type
invariant message notwithstanding, only non-nilness is checked), the field
name must be valid, and the arguments are collected. -/
def defineFieldMapLoop (ttypeStr : String) :
    Fields → FieldDefinitionMap → FieldDefinitionMap × Option GoErr
  | [], acc => (acc, none)
  | (fieldName, field?) :: rest, acc =>
    match field? with
    | none => defineFieldMapLoop ttypeStr rest acc
    | some field =>
      match field.Type' with
      | none =>
        (acc, invariantf false
          (ttypeStr ++ "." ++ fieldName ++ " field type must be Output Type but got: nil."))
      | some ftype =>
        match ftype.Error with
        | some e => (acc, some e)
        | none =>
        match assertValidName fieldName with
        | some err => (acc, some err)
        | none =>
          match defineFieldArgsLoop ttypeStr fieldName field.Args [] with
          | (_, some err) => (acc, some err)
          | (args, none) =>
            let fieldDef : FieldDefinitionS GType :=
              { Name := fieldName, Description := field.Description,
                Type' := some ftype, Resolve := field.Resolve,
                Subscribe := field.Subscribe,
                DeprecationReason := field.DeprecationReason,
                Directives := field.Directives, Args := args }
            defineFieldMapLoop ttypeStr rest (mapInsert acc fieldName fieldDef)

/-- `defineFieldMap`: the configured map must be non-empty, then each field
is processed in order; returns the collected map and the first error. The
`ttype Named` receiver is only used for messages and is passed as its
string form. -/
def defineFieldMap (ttypeStr : String) (fieldMap : Fields) :
    FieldDefinitionMap × Option GoErr :=
  match invariantf (fieldMap.length > 0)
      (ttypeStr ++ " fields must be an object with field names as keys or a function which return such an object.") with
  | some err => ([], some err)
  | none => defineFieldMapLoop ttypeStr fieldMap []

/-- Shared tail of `Object.Fields`: run `defineFieldMap`, store its map and
error, and mark the cache initialized. -/
def Object.finishFields (gt : Object) (configureFields : Fields) (calls : Nat) :
    Option FieldDefinitionMap × Object × Nat :=
  let r := defineFieldMap gt.PrivateName configureFields
  let gt := { gt with fields := some r.1, err := r.2, initialisedFields := true }
  (gt.fields, gt, calls)

/-- `Object.Fields`, with the receiver mutation made explicit: returns the
field map (nil on a thunk error), the updated object, and how many
configuration thunks were invoked during this call. Every path through the
body sets `initialisedFields`. -/
def Object.Fields (gt : Object) : Option FieldDefinitionMap × Object × Nat :=
  if gt.initialisedFields then (gt.fields, gt, 0) else
  match gt.typeConfig.Fields with
  | .fieldsMap m => gt.finishFields m 0
  | .thunk f => gt.finishFields (f ()) 1
  | .errThunk f =>
    match f () with
    | .error e =>
      (none,
       { gt with
         err := some ("error while resolving fields for " ++ gt.PrivateName ++ ": " ++ e)
         initialisedFields := true },
       1)
    | .ok m => gt.finishFields m 1
  | .nilCfg => gt.finishFields [] 0

/-- The loop of `defineInterfaces`: each entry must be a non-nil interface.
The source then re-checks `iface.ResolveType != nil` inside a branch that
is already guarded by the same condition, so that inner invariant can never
fail; the translation keeps the vacuous check. -/
def defineInterfacesLoop (ttypeStr : String) :
    List (Option Interface) → List Interface → List Interface × Option GoErr
  | [], acc => (acc, none)
  | iface? :: rest, acc =>
    match iface? with
    | none =>
      (acc, invariantf false
        (ttypeStr ++ " may only implement Interface types, it cannot implement: nil."))
    | some iface =>
      if iface.ResolveType.isSome then
        match invariantf iface.ResolveType.isSome
            ("Interface Type " ++ iface.PrivateName ++ " does not provide a \"resolveType\" function and implementing Type " ++ ttypeStr ++ " does not provide a \"isTypeOf\" function. There is no way to resolve this implementing type during execution.") with
        | some err => (acc, some err)
        | none => defineInterfacesLoop ttypeStr rest (acc ++ [iface])
      else
        defineInterfacesLoop ttypeStr rest (acc ++ [iface])

/-- `defineInterfaces`: an empty slice is fine; otherwise each entry is
checked in order. -/
def defineInterfaces (ttypeStr : String) (interfaces : List (Option Interface)) :
    List Interface × Option GoErr :=
  if interfaces.length = 0 then ([], none)
  else defineInterfacesLoop ttypeStr interfaces []

/-- Shared tail of `Object.Interfaces`. -/
def Object.finishInterfaces (gt : Object) (configInterfaces : List (Option Interface))
    (calls : Nat) : Option (List Interface) × Object × Nat :=
  let r := defineInterfaces gt.PrivateName configInterfaces
  let gt := { gt with
    interfaces := some r.1
    err := r.2
    initialisedInterfaces := true }
  (gt.interfaces, gt, calls)

/-- `Object.Interfaces`, with the receiver mutation made explicit; the
default case of the switch reports an unknown dynamic type. Every path
through the body sets `initialisedInterfaces`. -/
def Object.Interfaces (gt : Object) : Option (List Interface) × Object × Nat :=
  if gt.initialisedInterfaces then (gt.interfaces, gt, 0) else
  match gt.typeConfig.Interfaces with
  | .thunk f => gt.finishInterfaces (f ()) 1
  | .errThunk f =>
    match f () with
    | .error e =>
      (none,
       { gt with
         err := some ("error while resolving interfaces for " ++ gt.PrivateName ++ ": " ++ e)
         initialisedInterfaces := true },
       1)
    | .ok l => gt.finishInterfaces l 1
  | .ifaceList l => gt.finishInterfaces l 0
  | .nilCfg => gt.finishInterfaces [] 0
  | .otherCfg =>
    (none,
     { gt with
       err := some "unknown Object.Interfaces type"
       initialisedInterfaces := true },
     0)

/-- The embedded error of an object. -/
def Object.Error (gt : Object) : Option GoErr := gt.err

/-- `NewInterface` validates the name and stores the configuration. -/
def NewInterface (config : InterfaceConfig) : Interface :=
  let it : Interface := {}
  match invariant (config.Name != "") "Type must be named." with
  | some err => { it with err := some err }
  | none =>
  match assertValidName config.Name with
  | some err => { it with err := some err }
  | none =>
  { it with
    PrivateName := config.Name
    PrivateDescription := config.Description
    ResolveType := config.ResolveType
    typeConfig := config
    directives := config.Directives }

/-- Shared tail of `Interface.Fields`. -/
def Interface.finishFields (it : Interface) (configureFields : Fields) (calls : Nat) :
    Option FieldDefinitionMap × Interface × Nat :=
  let r := defineFieldMap it.PrivateName configureFields
  let it := { it with fields := some r.1, err := r.2, initialisedFields := true }
  (it.fields, it, calls)

/-- `Interface.Fields`, with the receiver mutation made explicit. Every
path through the body sets `initialisedFields`. -/
def Interface.Fields (it : Interface) : Option FieldDefinitionMap × Interface × Nat :=
  if it.initialisedFields then (it.fields, it, 0) else
  match it.typeConfig.Fields with
  | .fieldsMap m => it.finishFields m 0
  | .thunk f => it.finishFields (f ()) 1
  | .errThunk f =>
    match f () with
    | .error e =>
      (none,
       { it with
         err := some ("error while resolving fields for " ++ it.PrivateName ++ ": " ++ e)
         initialisedFields := true },
       1)
    | .ok m => it.finishFields m 1
  | .nilCfg => it.finishFields [] 0

/-- The embedded error of an interface. -/
def Interface.Error (it : Interface) : Option GoErr := it.err

/-- `NewUnion` validates the name and stores the configuration. -/
def NewUnion (config : UnionConfig) : Union :=
  let objectType : Union := {}
  match invariant (config.Name != "") "Type must be named." with
  | some err => { objectType with err := some err }
  | none =>
  match assertValidName config.Name with
  | some err => { objectType with err := some err }
  | none =>
  { objectType with
    PrivateName := config.Name
    PrivateDescription := config.Description
    ResolveType := config.ResolveType
    typeConfig := config
    directives := config.Directives }

/-- The loop of `defineUnionTypes`: each member must be a non-nil object,
and when the union has no `ResolveType`, every member must carry an
`IsTypeOf` function. -/
def defineUnionTypesLoop (objectType : Union) :
    List (Option Object) → List Object → List Object × Option GoErr
  | [], acc => (acc, none)
  | ttype? :: rest, acc =>
    match ttype? with
    | none =>
      (acc, invariantf false
        (objectType.PrivateName ++ " may only contain Object types, it cannot contain: nil."))
    | some ttype =>
      if objectType.ResolveType.isNone then
        match invariantf ttype.IsTypeOf.isSome
            ("Union Type " ++ objectType.PrivateName ++ " does not provide a \"resolveType\" function and possible Type " ++ ttype.PrivateName ++ " does not provide a \"isTypeOf\" function. There is no way to resolve this possible type during execution.") with
        | some err => (acc, some err)
        | none => defineUnionTypesLoop objectType rest (acc ++ [ttype])
      else
        defineUnionTypesLoop objectType rest (acc ++ [ttype])

/-- `defineUnionTypes`: the member slice must be non-empty, then each
member is checked in order. -/
def defineUnionTypes (objectType : Union) (unionTypes : List (Option Object)) :
    List Object × Option GoErr :=
  match invariantf (unionTypes.length > 0)
      ("Must provide Array of types for Union " ++ objectType.PrivateName ++ ".") with
  | some err => ([], some err)
  | none => defineUnionTypesLoop objectType unionTypes []

/-- Shared tail of `Union.Types`. -/
def Union.finishTypes (ut : Union) (unionTypes : List (Option Object)) (calls : Nat) :
    Option (List Object) × Union × Nat :=
  let r := defineUnionTypes ut unionTypes
  let ut := { ut with types := some r.1, err := r.2, initalizedTypes := true }
  (ut.types, ut, calls)

/-- `Union.Types`, with the receiver mutation made explicit; the default
case of the switch reports an unknown dynamic type. Every path through the
body sets `initalizedTypes`. -/
def Union.Types (ut : Union) : Option (List Object) × Union × Nat :=
  if ut.initalizedTypes then (ut.types, ut, 0) else
  match ut.typeConfig.Types with
  | .thunk f => ut.finishTypes (f ()) 1
  | .errThunk f =>
    match f () with
    | .error e =>
      (none,
       { ut with
         err := some ("error while resolving types for " ++ ut.PrivateName ++ ": " ++ e)
         initalizedTypes := true },
       1)
    | .ok l => ut.finishTypes l 1
  | .objList l => ut.finishTypes l 0
  | .nilCfg => ut.finishTypes [] 0
  | .otherCfg =>
    (none,
     { ut with
       err := some "unknown Union.Types type"
       initalizedTypes := true },
     0)

/-- The embedded error of a union. -/
def Union.Error (ut : Union) : Option GoErr := ut.err

/-- `NewInputObject` checks only that the name is non-empty — unlike the
other factories it never calls `assertValidName` — and stores the
configuration. -/
def NewInputObject (config : InputObjectConfig) : InputObject :=
  let gt : InputObject := {}
  match invariant (config.Name != "") "Type must be named." with
  | some err => { gt with err := some err }
  | none =>
  { gt with
    PrivateName := config.Name
    PrivateDescription := config.Description
    typeConfig := config }

/-- The field loop of `InputObject.defineFieldMap`: nil configs are
skipped, invalid field names are silently skipped (the result of
`assertValidName` is assigned to a local, not to the receiver), and a nil
field type is an error that aborts the loop. -/
def inputFieldsLoop (gtStr : String) :
    InputObjectConfigFieldMap → InputObjectFieldMap →
    InputObjectFieldMap × Option GoErr
  | [], acc => (acc, none)
  | (fieldName, fieldConfig?) :: rest, acc =>
    match fieldConfig? with
    | none => inputFieldsLoop gtStr rest acc
    | some fieldConfig =>
      match assertValidName fieldName with
      | some _ => inputFieldsLoop gtStr rest acc
      | none =>
      match fieldConfig.Type' with
      | none =>
        (acc, invariantf false
          (gtStr ++ "." ++ fieldName ++ " field type must be Input Type but got: nil."))
      | some _ =>
        let field : InputObjectFieldS GType :=
          { PrivateName := fieldName, Type' := fieldConfig.Type',
            PrivateDescription := fieldConfig.Description,
            DefaultValue := fieldConfig.DefaultValue }
        inputFieldsLoop gtStr rest (mapInsert acc fieldName field)

/-- Tail of `InputObject.defineFieldMap` after the config switch. Note that
`init` is set only when the whole loop succeeds: the empty-map invariant
and the nil-type error leave `init` false. -/
def InputObject.inputFinish (gt : InputObject) (fieldMap : InputObjectConfigFieldMap)
    (calls : Nat) : Option InputObjectFieldMap × InputObject × Nat :=
  match invariantf (fieldMap.length > 0)
      (gt.PrivateName ++ " fields must be an object with field names as keys or a function which return such an object.") with
  | some err => (some [], { gt with err := some err }, calls)
  | none =>
    match inputFieldsLoop gt.PrivateName fieldMap [] with
    | (resultFieldMap, some err) =>
      (some resultFieldMap, { gt with err := some err }, calls)
    | (resultFieldMap, none) =>
      (some resultFieldMap, { gt with init := true }, calls)

/-- `InputObject.defineFieldMap`, with the receiver mutation made explicit.
The thunk-error path returns nil and records the error without touching
`init`. -/
def InputObject.defineFieldMap (gt : InputObject) :
    Option InputObjectFieldMap × InputObject × Nat :=
  match gt.typeConfig.Fields with
  | .fieldsMap m => gt.inputFinish m 0
  | .thunk f => gt.inputFinish (f ()) 1
  | .errThunk f =>
    match f () with
    | .error e =>
      (none,
       { gt with err := some ("error while resolving fields for " ++ gt.PrivateName ++ ": " ++ e) },
       1)
    | .ok m => gt.inputFinish m 1
  | .nilCfg => gt.inputFinish [] 0

/-- `InputObject.Fields`: recomputes the field map whenever `init` is
false — including on every call after a failed materialization. -/
def InputObject.Fields (gt : InputObject) :
    Option InputObjectFieldMap × InputObject × Nat :=
  if !gt.init then
    let r := gt.defineFieldMap
    let gt2 := { r.2.1 with fields := r.1 }
    (gt2.fields, gt2, r.2.2)
  else
    (gt.fields, gt, 0)

/-- The embedded error of an input object. -/
def InputObject.Error (gt : InputObject) : Option GoErr := gt.err

/-- `NewList`: the wrapped type must be non-nil; on failure `OfType` stays
nil and the error is embedded. -/
def NewList (ofType : Option GType) : GType :=
  match invariantf ofType.isSome "Can only create List of a Type but got: nil." with
  | some err => GType.list none (some err)
  | none => GType.list ofType none

/-- `NewNonNull`: the wrapped type must be non-nil and not itself a
NonNull; on failure `OfType` stays nil and the error is embedded. -/
def NewNonNull (ofType : Option GType) : GType :=
  let isOfTypeNonNull :=
    match ofType with
    | some (GType.nonNull _ _) => true
    | _ => false
  match invariantf (ofType.isSome && !isOfTypeNonNull)
      "Can only create NonNull of a Nullable Type but got: an invalid type." with
  | some err => GType.nonNull none (some err)
  | none => GType.nonNull ofType none

/-- Directive location constant. -/
def DirectiveLocationField : String := "FIELD"

/-- Directive location constant. -/
def DirectiveLocationFragmentSpread : String := "FRAGMENT_SPREAD"

/-- Directive location constant. -/
def DirectiveLocationInlineFragment : String := "INLINE_FRAGMENT"

/-- Directive location constant. -/
def DirectiveLocationFieldDefinition : String := "FIELD_DEFINITION"

/-- Directive location constant. -/
def DirectiveLocationEnumValue : String := "ENUM_VALUE"

/-- Constant string used as the default reason for a deprecation. -/
def DefaultDeprecationReason : String := "No longer supported"

/-- A schema directive definition. -/
structure Directive where
  Name : String := ""
  Description : String := ""
  Locations : List String := []
  Args : List (ArgumentS GType) := []
  err : Option GoErr := none
  directives : List AppliedDirective := []

/-- Options for creating a new directive. -/
structure DirectiveConfig where
  Name : String := ""
  Description : String := ""
  Locations : List String := []
  Args : FieldConfigArgument := []
  Directives : List AppliedDirective := []

/-- The argument loop of `NewDirective`. In contrast with the field-map
code, the source dereferences each `*ArgumentConfig` with no nil check
(`argConfig.Description` and friends), which `goDeref` makes explicit: a
nil entry whose name passed validation panics. -/
def newDirectiveArgsLoop :
    FieldConfigArgument → List (ArgumentS GType) →
    Except GoPanic (List (ArgumentS GType) × Option GoErr)
  | [], args => .ok (args, none)
  | (argName, argConfig?) :: rest, args =>
    match assertValidName argName with
    | some err => .ok (args, some err)
    | none =>
    match goDeref argConfig? with
    | .error p => .error p
    | .ok argConfig =>
      newDirectiveArgsLoop rest
        (args ++ [{ PrivateName := argName,
                    PrivateDescription := argConfig.Description,
                    Type' := argConfig.Type',
                    DefaultValue := argConfig.DefaultValue }])

/-- `NewDirective`: name and locations are validated with errors embedded
in the returned directive; the argument loop can panic on a nil argument
config. -/
def NewDirective (config : DirectiveConfig) : Except GoPanic Directive :=
  let dir : Directive := {}
  match invariant (config.Name != "") "Directive must be named." with
  | some err => .ok { dir with err := some err }
  | none =>
  match assertValidName config.Name with
  | some err => .ok { dir with err := some err }
  | none =>
  match invariant (config.Locations.length > 0) "Must provide locations for directive." with
  | some err => .ok { dir with err := some err }
  | none =>
  match newDirectiveArgsLoop config.Args [] with
  | .error p => .error p
  | .ok (_, some err) => .ok { dir with err := some err }
  | .ok (args, none) =>
    .ok { dir with
      Name := config.Name
      Description := config.Description
      Locations := config.Locations
      Args := args
      directives := config.Directives }

/-- Modelled from the spec: the standard `Boolean` scalar is defined in a
scalars source file that is not among the provided sources. Only its name
matters for the directive definitions below; its serialize function (a
boolean coercion whose body is not in the provided sources) is represented
by the identity. -/
def BooleanScalar : Scalar :=
  NewScalar
    { Name := "Boolean"
      Description := "The Boolean scalar type represents true or false."
      Serialize := some (fun v => v) }

/-- Modelled from the spec: the standard `String` scalar, defined outside
the provided sources; only its name matters here. -/
def StringScalar : Scalar :=
  NewScalar
    { Name := "String"
      Description := "The String scalar type represents textual data."
      Serialize := some (fun v => v) }

/-- `IncludeDirective`, used to conditionally include fields or fragments.
The package-level Go `var` initialization cannot panic here (the argument
configs are non-nil), so the `Except` wrapper is discharged with the zero
directive as an unreachable fallback. -/
def IncludeDirective : Directive :=
  ((NewDirective
    { Name := "include"
      Description := "Directs the executor to include this field or fragment only when the `if` argument is true."
      Locations := [DirectiveLocationField, DirectiveLocationFragmentSpread,
                    DirectiveLocationInlineFragment]
      Args := [("if", some { Type' := some (NewNonNull (some (GType.scalar BooleanScalar))),
                             Description := "Included when true." })] }).toOption).getD {}

/-- `SkipDirective`, used to conditionally skip fields or fragments. -/
def SkipDirective : Directive :=
  ((NewDirective
    { Name := "skip"
      Description := "Directs the executor to skip this field or fragment when the `if` argument is true."
      Args := [("if", some { Type' := some (NewNonNull (some (GType.scalar BooleanScalar))),
                             Description := "Skipped when true." })]
      Locations := [DirectiveLocationField, DirectiveLocationFragmentSpread,
                    DirectiveLocationInlineFragment] }).toOption).getD {}

/-- `DeprecatedDirective`, used to declare schema elements deprecated. -/
def DeprecatedDirective : Directive :=
  ((NewDirective
    { Name := "deprecated"
      Description := "Marks an element of a GraphQL schema as no longer supported."
      Args := [("reason", some { Type' := some (GType.scalar StringScalar),
                                 Description := "Explains why this element was deprecated.",
                                 DefaultValue := GoVal.vstr DefaultDeprecationReason })]
      Locations := [DirectiveLocationFieldDefinition, DirectiveLocationEnumValue] }).toOption).getD {}

/-- `OmitEmptyDirective`, a non-standard directive of this fork that omits
a field or fragment when its response value resolves to null or an empty
list. -/
def OmitEmptyDirective : Directive :=
  ((NewDirective
    { Name := "omitEmpty"
      Description := "Directs the executor to omit this field or fragment when the response value resolves to null or an empty list."
      Locations := [DirectiveLocationField, DirectiveLocationFragmentSpread,
                    DirectiveLocationInlineFragment] }).toOption).getD {}

/-- `SpecifiedDirectives`: the compiled-in default directive set. -/
def SpecifiedDirectives : List Directive :=
  [IncludeDirective, SkipDirective, OmitEmptyDirective, DeprecatedDirective]

/-- A response path: Go's `*ResponsePath` is nil for the empty path, or a
node holding the previous path and this step's key. -/
inductive ResponsePath where
  | nil
  | node (Prev : ResponsePath) (Key : GoVal)
  deriving DecidableEq, Repr

/-- `WithKey` returns a new path node pointing at the receiver (which may
be nil: the method never dereferences it). -/
def ResponsePath.WithKey (p : ResponsePath) (key : GoVal) : ResponsePath :=
  ResponsePath.node p key

/-- `AsArray` returns the path's keys from the root down; nil gives the
empty array. -/
def ResponsePath.AsArray : ResponsePath → List GoVal
  | .nil => []
  | .node prev key => prev.AsArray ++ [key]

/-
Helper lemmas shared by several claims.
-/

/-- The empty string does not match the name pattern. -/
lemma nameRegExpMatches_ne_empty {s : String} (h : nameRegExpMatches s = true) :
    s ≠ "" := by
  intro he
  subst he
  simp [nameRegExpMatches] at h

/-- A name failing the pattern makes `assertValidName` return an error. -/
lemma assertValidName_of_invalid {s : String} (h : nameRegExpMatches s = false) :
    assertValidName s =
      some ("Names must match /^[_a-zA-Z][_a-zA-Z0-9]*$/ but \"" ++ s ++ "\" does not.") := by
  simp [assertValidName, invariantf, h]

/-- A name matching the pattern makes `assertValidName` succeed. -/
lemma assertValidName_of_valid {s : String} (h : nameRegExpMatches s = true) :
    assertValidName s = none := by
  simp [assertValidName, invariantf, h]

/-- Every member of a map after an insertion is the inserted binding or an
original member. -/
lemma mapInsert_mem {κ β : Type} [DecidableEq κ] (k : κ) (v : β) :
    ∀ (m : List (κ × β)) (p : κ × β), p ∈ mapInsert m k v → p = (k, v) ∨ p ∈ m := by
  intro m
  induction m with
  | nil =>
    intro p hp
    simpa [mapInsert] using hp
  | cons q rest ih =>
    intro p hp
    rcases q with ⟨k', v'⟩
    by_cases hk : k' = k
    · simp only [mapInsert, if_pos hk] at hp
      rcases List.mem_cons.mp hp with h | h
      · exact Or.inl h
      · exact Or.inr (List.mem_cons_of_mem _ h)
    · simp only [mapInsert, if_neg hk] at hp
      rcases List.mem_cons.mp hp with h | h
      · exact Or.inr (by simp [h])
      · rcases ih p h with h' | h'
        · exact Or.inl h'
        · exact Or.inr (List.mem_cons_of_mem _ h')

/-- Inserting a fresh key appends the binding. -/
lemma mapInsert_notmem {κ β : Type} [DecidableEq κ] (k : κ) (v : β) :
    ∀ (m : List (κ × β)), k ∉ m.map Prod.fst → mapInsert m k v = m ++ [(k, v)] := by
  intro m
  induction m with
  | nil => intro _; rfl
  | cons q rest ih =>
    intro h
    rcases q with ⟨k', v'⟩
    simp only [List.map_cons, List.mem_cons] at h
    push_neg at h
    have hne : ¬ (k' = k) := fun he => h.1 he.symm
    simp only [mapInsert, if_neg hne]
    rw [ih h.2]
    simp

/-- Folding `mapInsert` over pairwise-fresh keys produces the plain
association list of the keyed elements. -/
lemma foldl_mapInsert_eq {α κ : Type} [DecidableEq κ] (key : α → κ) :
    ∀ (values : List α) (acc : List (κ × α)),
      (acc.map Prod.fst ++ values.map key).Nodup →
      values.foldl (fun acc v => mapInsert acc (key v) v) acc
        = acc ++ values.map (fun v => (key v, v)) := by
  intro values
  induction values with
  | nil => intro acc _; simp
  | cons v vs ih =>
    intro acc h
    have hfresh : key v ∉ acc.map Prod.fst := by
      intro hmem
      rcases List.nodup_append.mp h with ⟨_, _, hdisj⟩
      exact hdisj hmem (by simp)
    simp only [List.foldl_cons]
    rw [mapInsert_notmem (key v) v acc hfresh]
    rw [ih (acc ++ [(key v, v)]) (by
      simp only [List.map_append, List.map_cons] at h ⊢
      simpa [List.append_assoc] using h)]
    simp

/-- Looking up a keyed element in the plain association list of a
pairwise-fresh-keyed list finds that element. -/
lemma mapLookup_map_self {α κ : Type} [DecidableEq κ] (key : α → κ) :
    ∀ (values : List α) (d : α), (values.map key).Nodup → d ∈ values →
      mapLookup (values.map (fun v => (key v, v))) (key d) = some d := by
  intro values
  induction values with
  | nil => intro d _ hd; simp at hd
  | cons v vs ih =>
    intro d hnd hd
    simp only [List.map_cons, List.nodup_cons] at hnd
    rcases List.mem_cons.mp hd with h | h
    · subst h
      simp [mapLookup]
    · have hne : key v ≠ key d := by
        intro he
        exact hnd.1 (he ▸ List.mem_map_of_mem key h)
      simp only [List.map_cons, mapLookup, if_neg hne]
      exact ih d hnd.2 h

/-- Looking up a key carried by no element misses. -/
lemma mapLookup_map_none {α κ : Type} [DecidableEq κ] (key : α → κ) :
    ∀ (values : List α) (k : κ), (∀ d ∈ values, key d ≠ k) →
      mapLookup (values.map (fun v => (key v, v))) k = none := by
  intro values
  induction values with
  | nil => intro k _; rfl
  | cons v vs ih =>
    intro k h
    simp only [List.map_cons, mapLookup, if_neg (h v (by simp))]
    exact ih k (fun d hd => h d (List.mem_cons_of_mem _ hd))

/-
Claim C8. The source's `SpecifiedDirectives` contains, in order, the
directives named include, skip, omitEmpty and deprecated — four names, not
the three the claim allows.
-/

/-- C8 counterexample: `SpecifiedDirectives` contains the directive named
`omitEmpty`, which is none of `include`, `skip`, `deprecated`; so the
compiled-in set does not consist of exactly those three names. -/
theorem c8_counterexample :
    SpecifiedDirectives.map Directive.Name = ["include", "skip", "omitEmpty", "deprecated"]
    ∧ ("omitEmpty" ≠ "include" ∧ "omitEmpty" ≠ "skip" ∧ "omitEmpty" ≠ "deprecated") := by
  constructor
  · decide
  · refine ⟨?_, ?_, ?_⟩ <;> decide

/-- C8 (amended): the compiled-in default directive set consists exactly of
the four directives named include, skip, omitEmpty and deprecated, in that
order. -/
theorem c8_specified_directives :
    SpecifiedDirectives.map Directive.Name = ["include", "skip", "omitEmpty", "deprecated"] := by
  decide

/-
Claim C9. Response paths are append-only: `WithKey` builds a new node whose
`AsArray` is the old array with the key appended, the previous path is
stored unchanged, and the nil path's array is empty.
-/

/-- C9: for every response path `p` (including nil) and key `k`,
`p.WithKey k` is a fresh node wrapping `p` unchanged, its `AsArray` is
`p.AsArray` with `k` appended as the last element, and the nil path's
`AsArray` is the empty sequence. -/
theorem c9_response_path_append (p : ResponsePath) (k : GoVal) :
    (p.WithKey k).AsArray = p.AsArray ++ [k]
    ∧ p.WithKey k = ResponsePath.node p k
    ∧ ResponsePath.nil.AsArray = ([] : List GoVal) :=
  ⟨rfl, rfl, rfl⟩

/-
Claim C1. The factories whose bodies contain a pointer dereference are
`NewEnum` (dereference guarded by a nil check) and `NewDirective`
(unguarded dereference of each `*ArgumentConfig`); the remaining factories
contain no potentially-panicking operation at all and are total functions
of this file. `NewDirective` does panic on a nil argument config, so the
claim as stated fails.
-/

/-- `invariant` succeeds on a true condition. -/
lemma invariant_true {b : Bool} (m : String) (h : b = true) :
    invariant b m = none := by
  simp [invariant, h]

/-- `invariant` errors on a false condition. -/
lemma invariant_false {b : Bool} (m : String) (h : b = false) :
    invariant b m = some m := by
  simp [invariant, h]

/-- `invariantf` succeeds on a true condition. -/
lemma invariantf_true {b : Bool} (m : String) (h : b = true) :
    invariantf b m = none := by
  simp [invariantf, h]

/-- `invariantf` errors on a false condition. -/
lemma invariantf_false {b : Bool} (m : String) (h : b = false) :
    invariantf b m = some m := by
  simp [invariantf, h]

/-- The enum value loop never panics: its only dereference is dominated by
the non-nil invariant. -/
lemma defineEnumValuesLoop_isOk (s : String) :
    ∀ (l : EnumValueConfigMap) (values : List EnumValueDefinition),
      ∃ r, defineEnumValuesLoop s l values = .ok r := by
  intro l
  induction l with
  | nil => intro values; exact ⟨(values, none), rfl⟩
  | cons e rest ih =>
    intro values
    rcases e with ⟨valueName, vc?⟩
    cases vc? with
    | none => exact ⟨_, rfl⟩
    | some vc =>
      simp only [defineEnumValuesLoop, Option.isSome_some, invariantf, if_true]
      cases hn : assertValidName valueName with
      | some err => exact ⟨_, rfl⟩
      | none =>
        simp only [goDeref]
        exact ih _

/-- `defineEnumValues` never panics. -/
lemma defineEnumValues_isOk (gt : Enum) (valueMap : EnumValueConfigMap) :
    ∃ r, gt.defineEnumValues valueMap = .ok r := by
  unfold Enum.defineEnumValues
  split
  · exact ⟨_, rfl⟩
  · exact defineEnumValuesLoop_isOk gt.PrivateName valueMap []

/-- `defineEnumValues` never returns a panic value. -/
lemma defineEnumValues_ne_error (gt : Enum) (valueMap : EnumValueConfigMap)
    (p : GoPanic) : gt.defineEnumValues valueMap ≠ .error p := by
  obtain ⟨r, hr⟩ := defineEnumValues_isOk gt valueMap
  simp [hr]

/-- `NewEnum` never panics. -/
lemma NewEnum_isOk (config : EnumConfig) : ∃ e, NewEnum config = .ok e := by
  unfold NewEnum
  dsimp only
  split
  · exact ⟨_, rfl⟩
  · split
    · next p hp => exact absurd hp (defineEnumValues_ne_error _ _ _)
    · exact ⟨_, rfl⟩

/-- The directive argument loop cannot panic when every argument config is
non-nil. -/
lemma newDirectiveArgsLoop_isOk :
    ∀ (l : FieldConfigArgument) (args : List (ArgumentS GType)),
      (∀ p ∈ l, p.2.isSome = true) →
      ∃ r, newDirectiveArgsLoop l args = .ok r := by
  intro l
  induction l with
  | nil => intro args _; exact ⟨(args, none), rfl⟩
  | cons e rest ih =>
    intro args h
    rcases e with ⟨argName, arg?⟩
    have harg : arg?.isSome = true := h (argName, arg?) (by simp)
    cases arg? with
    | none => simp at harg
    | some arg =>
      simp only [newDirectiveArgsLoop]
      cases hn : assertValidName argName with
      | some err => exact ⟨_, rfl⟩
      | none =>
        simp only [goDeref]
        exact ih _ (fun p hp => h p (List.mem_cons_of_mem _ hp))

/-- C1 counterexample: `NewDirective` panics (nil pointer dereference) on a
configuration whose `Args` map carries a nil `*ArgumentConfig` under a
valid argument name — it does not return a directive value. -/
theorem c1_counterexample :
    NewDirective { Name := "example", Locations := ["FIELD"], Args := [("arg", none)] }
      = .error GoPanic.nilDereference := rfl

/-- C1 (amended): construction never panics for `NewScalar`, `NewObject`,
`NewInterface`, `NewUnion`, `NewInputObject`, `NewList` and `NewNonNull`
(total functions whose bodies contain no potentially-panicking operation),
and for `NewEnum` on every configuration (its only dereference is guarded);
`NewDirective` returns a directive value — with any problem captured in its
embedded error — provided no argument config in the map is nil. -/
theorem c1_factories_no_panic :
    (∀ config : EnumConfig, ∃ e, NewEnum config = .ok e)
    ∧ (∀ config : DirectiveConfig, (∀ p ∈ config.Args, p.2.isSome = true) →
        ∃ d, NewDirective config = .ok d) := by
  constructor
  · exact NewEnum_isOk
  · intro config h
    unfold NewDirective
    dsimp only
    split
    · exact ⟨_, rfl⟩
    · split
      · exact ⟨_, rfl⟩
      · split
        · exact ⟨_, rfl⟩
        · split
          · next p hp =>
            obtain ⟨r, hr⟩ := newDirectiveArgsLoop_isOk config.Args [] h
            rw [hr] at hp
            cases hp
          · exact ⟨_, rfl⟩
          · exact ⟨_, rfl⟩

/-- C1 witness: the amended theorem applied at concrete configurations. -/
theorem c1_witness :
    (∃ e, NewEnum { Name := "E", Values := [("A", some {})] } = .ok e)
    ∧ (∀ p ∈ ([("if", some {})] : FieldConfigArgument), p.2.isSome = true)
    ∧ (∃ d, NewDirective { Name := "example", Locations := ["FIELD"], Args := [("if", some {})] } = .ok d) :=
  ⟨c1_factories_no_panic.1 _, by decide,
   c1_factories_no_panic.2 _ (by decide)⟩

/-
Claim C3. Six of the seven named factories reject a name that fails the
pattern; `NewInputObject` checks only non-emptiness and accepts, for
example, "bad-name" with a nil embedded error.
-/

/-- C3 counterexample: `NewInputObject` embeds no error for the name
"bad-name", which does not match the name pattern. -/
theorem c3_counterexample :
    (NewInputObject { Name := "bad-name" }).err = none
    ∧ nameRegExpMatches "bad-name" = false :=
  ⟨rfl, by decide⟩

/-- C3 (amended): for every configuration whose name fails the pattern,
`NewScalar`, `NewObject`, `NewInterface`, `NewUnion`, `NewEnum` and
`NewDirective` return a type with a non-nil embedded error; `NewInputObject`
rejects only the empty name, so it is excluded. -/
theorem c3_invalid_name_errors (name : String) (h : nameRegExpMatches name = false) :
    (∀ config : ScalarConfig, config.Name = name → (NewScalar config).err ≠ none)
    ∧ (∀ config : ObjectConfig, config.Name = name → (NewObject config).err ≠ none)
    ∧ (∀ config : InterfaceConfig, config.Name = name → (NewInterface config).err ≠ none)
    ∧ (∀ config : UnionConfig, config.Name = name → (NewUnion config).err ≠ none)
    ∧ (∀ config : EnumConfig, config.Name = name →
        ∀ e, NewEnum config = .ok e → e.err ≠ none)
    ∧ (∀ config : DirectiveConfig, config.Name = name →
        ∀ d, NewDirective config = .ok d → d.err ≠ none) := by
  refine ⟨?_, ?_, ?_, ?_, ?_, ?_⟩
  · intro config hc
    have hm : nameRegExpMatches config.Name = false := by rw [hc]; exact h
    by_cases h1 : config.Name = ""
    · simp [NewScalar, invariant, h1]
    · simp [NewScalar, invariant, assertValidName, invariantf, bne_iff_ne, h1, hm]
  · intro config hc
    have hm : nameRegExpMatches config.Name = false := by rw [hc]; exact h
    by_cases h1 : config.Name = ""
    · simp [NewObject, invariant, h1]
    · simp [NewObject, invariant, assertValidName, invariantf, bne_iff_ne, h1, hm]
  · intro config hc
    have hm : nameRegExpMatches config.Name = false := by rw [hc]; exact h
    by_cases h1 : config.Name = ""
    · simp [NewInterface, invariant, h1]
    · simp [NewInterface, invariant, assertValidName, invariantf, bne_iff_ne, h1, hm]
  · intro config hc
    have hm : nameRegExpMatches config.Name = false := by rw [hc]; exact h
    by_cases h1 : config.Name = ""
    · simp [NewUnion, invariant, h1]
    · simp [NewUnion, invariant, assertValidName, invariantf, bne_iff_ne, h1, hm]
  · intro config hc e he
    have hm : nameRegExpMatches config.Name = false := by rw [hc]; exact h
    unfold NewEnum at he
    rw [assertValidName_of_invalid hm] at he
    dsimp only at he
    cases he
    simp
  · intro config hc d hd
    have hm : nameRegExpMatches config.Name = false := by rw [hc]; exact h
    unfold NewDirective at hd
    by_cases h1 : config.Name = ""
    · rw [invariant_false (b := config.Name != "") "Directive must be named."
        (by simp [h1])] at hd
      dsimp only at hd
      cases hd
      simp
    · rw [invariant_true (b := config.Name != "") "Directive must be named."
        (by simp [bne_iff_ne, h1]), assertValidName_of_invalid hm] at hd
      dsimp only at hd
      cases hd
      simp

/-- C3 witness: the amended theorem applied at the name "bad-name" and
concrete configurations for all six factories. -/
theorem c3_witness :
    nameRegExpMatches "bad-name" = false
    ∧ (NewScalar { Name := "bad-name" }).err ≠ none
    ∧ (NewObject { Name := "bad-name" }).err ≠ none
    ∧ (NewInterface { Name := "bad-name" }).err ≠ none
    ∧ (NewUnion { Name := "bad-name" }).err ≠ none
    ∧ (∀ e, NewEnum { Name := "bad-name" } = .ok e → e.err ≠ none)
    ∧ (∀ d, NewDirective { Name := "bad-name" } = .ok d → d.err ≠ none) :=
  ⟨by decide,
   (c3_invalid_name_errors "bad-name" (by decide)).1 _ rfl,
   (c3_invalid_name_errors "bad-name" (by decide)).2.1 _ rfl,
   (c3_invalid_name_errors "bad-name" (by decide)).2.2.1 _ rfl,
   (c3_invalid_name_errors "bad-name" (by decide)).2.2.2.1 _ rfl,
   (c3_invalid_name_errors "bad-name" (by decide)).2.2.2.2.1 _ rfl,
   (c3_invalid_name_errors "bad-name" (by decide)).2.2.2.2.2 _ rfl⟩

/-
Claim C10. The coercion-function pairing rule of `NewScalar`.
-/

/-- A scalar constructed without error stored its configuration. -/
lemma NewScalar_err_none_config {config : ScalarConfig}
    (h : (NewScalar config).err = none) :
    NewScalar config =
      { PrivateName := config.Name, PrivateDescription := config.Description,
        scalarConfig := config } := by
  by_cases h1 : config.Name = ""
  · simp [NewScalar, invariant, h1] at h
  · by_cases h2 : nameRegExpMatches config.Name = true
    case neg =>
      have h2' : nameRegExpMatches config.Name = false := by
        simpa using h2
      simp [NewScalar, invariant, assertValidName, invariantf, bne_iff_ne, h1, h2'] at h
    case pos =>
      by_cases h3 : config.Serialize.isSome = true
      case neg =>
        have h3' : config.Serialize.isSome = false := by
          simpa using h3
        simp [NewScalar, invariant, assertValidName, invariantf, bne_iff_ne, h1, h2, h3'] at h
      case pos =>
        cases hv : config.ParseValue.isSome <;> cases hl : config.ParseLiteral.isSome
        all_goals
          simp [NewScalar, invariant, assertValidName, invariantf, bne_iff_ne,
                h1, h2, h3, hv, hl] at h ⊢

/-- C10: with a valid name, `NewScalar` embeds an error when `Serialize` is
missing, and when exactly one of `ParseValue` / `ParseLiteral` is provided;
when construction succeeds, a missing `ParseLiteral` yields nil on every
AST value, and missing `ParseValue` / `Serialize` act as the identity. -/
theorem c10_scalar_pairing (config : ScalarConfig)
    (hname : nameRegExpMatches config.Name = true) :
    (config.Serialize = none → (NewScalar config).err ≠ none)
    ∧ (config.ParseValue.isSome ≠ config.ParseLiteral.isSome →
        (NewScalar config).err ≠ none)
    ∧ ((NewScalar config).err = none → config.ParseLiteral = none →
        ∀ v, (NewScalar config).ParseLiteral v = GoVal.vnil)
    ∧ ((NewScalar config).err = none → config.ParseValue = none →
        ∀ v, (NewScalar config).ParseValue v = v)
    ∧ ((NewScalar config).err = none → config.Serialize = none →
        ∀ v, (NewScalar config).Serialize v = v) := by
  have h1 : config.Name ≠ "" := nameRegExpMatches_ne_empty hname
  refine ⟨?_, ?_, ?_, ?_, ?_⟩
  · intro hS
    have h3 : config.Serialize.isSome = false := by rw [hS]; rfl
    simp [NewScalar, invariant, assertValidName, invariantf, bne_iff_ne, h1, hname, h3]
  · intro hPL
    by_cases h3 : config.Serialize.isSome = true
    case neg =>
      have h3' : config.Serialize.isSome = false := by simpa using h3
      simp [NewScalar, invariant, assertValidName, invariantf, bne_iff_ne, h1, hname, h3']
    case pos =>
      cases hv : config.ParseValue.isSome <;> cases hl : config.ParseLiteral.isSome
      · exact absurd (hv.trans hl.symm) hPL
      · simp [NewScalar, invariant, assertValidName, invariantf, bne_iff_ne,
              h1, hname, h3, hv, hl]
      · simp [NewScalar, invariant, assertValidName, invariantf, bne_iff_ne,
              h1, hname, h3, hv, hl]
      · exact absurd (hv.trans hl.symm) hPL
  · intro he hPL v
    rw [Scalar.ParseLiteral, NewScalar_err_none_config he]
    simp [hPL]
  · intro he hPV v
    rw [Scalar.ParseValue, NewScalar_err_none_config he]
    simp [hPV]
  · intro he hS v
    rw [Scalar.Serialize, NewScalar_err_none_config he]
    simp [hS]

/-
Claims C6 and C7. Enum value names materialize exactly as the configured
map keys, so they are pairwise distinct; internal values, however, are
never checked for duplicates — `NewEnum` accepts a configuration whose
internal values collide, with a nil error.
-/

/-- The name of a defined enum value is the configured key, whether or not
the internal value was defaulted. -/
lemma enumValue_name (valueName : String) (value0 : EnumValueDefinition) :
    (if value0.Value = GoVal.vnil then { value0 with Value := GoVal.vstr valueName }
     else value0).Name = value0.Name := by
  split <;> rfl

/-- On success, the enum value loop appends one definition per configured
entry: the collected names are the accumulator's names followed by the map
keys, in order. -/
lemma defineEnumValuesLoop_names (s : String) :
    ∀ (l : EnumValueConfigMap) (acc values : List EnumValueDefinition),
      defineEnumValuesLoop s l acc = .ok (values, none) →
      values.map EnumValueDefinition.Name
        = acc.map EnumValueDefinition.Name ++ l.map Prod.fst := by
  intro l
  induction l with
  | nil =>
    intro acc values h
    simp only [defineEnumValuesLoop, Except.ok.injEq, Prod.mk.injEq] at h
    rw [← h.1]
    simp
  | cons e rest ih =>
    intro acc values h
    rcases e with ⟨valueName, vc?⟩
    cases vc? with
    | none =>
      simp [defineEnumValuesLoop, invariantf] at h
    | some vc =>
      simp only [defineEnumValuesLoop, Option.isSome_some, invariantf, if_true] at h
      cases hn : assertValidName valueName with
      | some err => rw [hn] at h; simp at h
      | none =>
        rw [hn] at h
        simp only [goDeref] at h
        rw [ih _ _ h]
        simp only [List.map_append, List.map_cons, List.map_nil, List.append_assoc,
          List.cons_append, List.nil_append, List.append_cancel_left_eq, List.cons.injEq,
          and_true]
        split <;> rfl

/-- A successfully constructed enum's value names are exactly the
configured map keys, in order. -/
lemma NewEnum_ok_names {config : EnumConfig} {e : Enum}
    (he : NewEnum config = .ok e) (herr : e.err = none) :
    e.values.map EnumValueDefinition.Name = config.Values.map Prod.fst := by
  unfold NewEnum at he
  dsimp only at he
  cases hn : assertValidName config.Name with
  | some err =>
    rw [hn] at he
    dsimp only at he
    cases he
    simp at herr
  | none =>
    rw [hn] at he
    dsimp only at he
    unfold Enum.defineEnumValues at he
    dsimp only at he
    cases hi : invariantf (decide (config.Values.length > 0))
        (config.Name ++ " values must be an object with value names as keys.") with
    | some err =>
      rw [hi] at he
      dsimp only at he
      cases he
      simp at herr
    | none =>
      rw [hi] at he
      dsimp only at he
      cases hl : defineEnumValuesLoop config.Name config.Values [] with
      | error p => rw [hl] at he; cases he
      | ok r =>
        rcases r with ⟨values, err⟩
        rw [hl] at he
        dsimp only at he
        cases he
        simp only at herr
        subst herr
        simpa using defineEnumValuesLoop_names config.Name config.Values [] values hl

/-- C6 setup: an enum whose two values share the internal value 0. -/
def c6Config : EnumConfig :=
  { Name := "Color"
    Values := [("RED", some { Value := GoVal.vint 0 }),
               ("GREEN", some { Value := GoVal.vint 0 })] }

/-- C6 setup: the enum built from `c6Config`. -/
def c6Enum : Enum := ((NewEnum c6Config).toOption).getD {}

/-- C6 counterexample: `NewEnum` accepts two value names configured with
the same internal value — the embedded error is nil and the internal
values of the constructed enum are not pairwise distinct. -/
theorem c6_counterexample :
    NewEnum c6Config = .ok c6Enum
    ∧ c6Enum.err = none
    ∧ c6Enum.values.map EnumValueDefinition.Value = [GoVal.vint 0, GoVal.vint 0]
    ∧ ¬ (c6Enum.values.map EnumValueDefinition.Value).Nodup :=
  ⟨rfl, rfl, rfl, by decide⟩

/-- C6 (amended): for an enum constructed by `NewEnum` without error, the
value names are pairwise distinct (they are the keys of the configured Go
map, whose distinctness is the `Nodup` hypothesis); `NewEnum` performs no
uniqueness check on internal values, and duplicated internal values are
accepted with a nil error. -/
theorem c6_enum_names_distinct (config : EnumConfig)
    (hkeys : (config.Values.map Prod.fst).Nodup) (e : Enum)
    (he : NewEnum config = .ok e) (herr : e.err = none) :
    (e.values.map EnumValueDefinition.Name).Nodup := by
  rw [NewEnum_ok_names he herr]
  exact hkeys

/-- C6 setup: a well-formed two-value enum configuration. -/
def c6OkConfig : EnumConfig :=
  { Name := "RGB"
    Values := [("RED", some { Value := GoVal.vint 0 }),
               ("GREEN", some { Value := GoVal.vint 1 })] }

/-- C6 setup: the enum built from `c6OkConfig`. -/
def c6OkEnum : Enum := ((NewEnum c6OkConfig).toOption).getD {}

/-- C6 witness: the amended theorem applied to a concrete enum. -/
theorem c6_witness :
    (c6OkConfig.Values.map Prod.fst).Nodup
    ∧ NewEnum c6OkConfig = .ok c6OkEnum
    ∧ c6OkEnum.err = none
    ∧ (c6OkEnum.values.map EnumValueDefinition.Name).Nodup :=
  ⟨by decide, rfl, rfl, c6_enum_names_distinct c6OkConfig (by decide) c6OkEnum rfl rfl⟩

/-- The name lookup of an enum with pairwise-distinct value names is the
plain association list of its values keyed by name. -/
lemma getNameLookup_eq {e : Enum}
    (h : (e.values.map EnumValueDefinition.Name).Nodup) :
    e.getNameLookup = e.values.map (fun v => (v.Name, v)) := by
  unfold Enum.getNameLookup Enum.Values
  rw [foldl_mapInsert_eq EnumValueDefinition.Name e.values []]
  · simp
  · simpa using h

/-- The internal-value lookup of an enum with pairwise-distinct internal
values is the plain association list of its values keyed by value. -/
lemma getValueLookup_eq {e : Enum}
    (h : (e.values.map EnumValueDefinition.Value).Nodup) :
    e.getValueLookup = e.values.map (fun v => (v.Value, v)) := by
  unfold Enum.getValueLookup Enum.Values
  rw [foldl_mapInsert_eq EnumValueDefinition.Value e.values []]
  · simp
  · simpa using h

/-- C7: for an enum constructed without error (from a Go map, so with
pairwise-distinct keys) whose internal values are pairwise distinct:
`ParseValue` maps every defined name to its internal value and `Serialize`
maps it back; `ParseValue` is nil on every undefined string and every
non-string; `Serialize` is nil on every value outside the enum. -/
theorem c7_enum_roundtrip (config : EnumConfig) (e : Enum)
    (he : NewEnum config = .ok e) (herr : e.err = none)
    (hkeys : (config.Values.map Prod.fst).Nodup)
    (hvals : (e.values.map EnumValueDefinition.Value).Nodup) :
    (∀ d ∈ e.values,
      e.ParseValue (GoVal.vstr d.Name) = d.Value
      ∧ e.Serialize d.Value = GoVal.vstr d.Name)
    ∧ (∀ s : String, (∀ d ∈ e.values, d.Name ≠ s) →
        e.ParseValue (GoVal.vstr s) = GoVal.vnil)
    ∧ (∀ v : GoVal, (∀ d ∈ e.values, d.Value ≠ v) →
        e.Serialize v = GoVal.vnil) := by
  have hnames : (e.values.map EnumValueDefinition.Name).Nodup := by
    rw [NewEnum_ok_names he herr]; exact hkeys
  refine ⟨?_, ?_, ?_⟩
  · intro d hd
    constructor
    · unfold Enum.ParseValue
      dsimp only
      rw [getNameLookup_eq hnames,
          mapLookup_map_self EnumValueDefinition.Name e.values d hnames hd]
    · unfold Enum.Serialize
      rw [getValueLookup_eq hvals,
          mapLookup_map_self EnumValueDefinition.Value e.values d hvals hd]
  · intro s hs
    unfold Enum.ParseValue
    dsimp only
    rw [getNameLookup_eq hnames, mapLookup_map_none EnumValueDefinition.Name e.values s hs]
  · intro v hv
    unfold Enum.Serialize
    rw [getValueLookup_eq hvals, mapLookup_map_none EnumValueDefinition.Value e.values v hv]

/-- C7 setup: a two-value enum configuration with distinct internals. -/
def c7Config : EnumConfig :=
  { Name := "Rgb2"
    Values := [("RED", some { Value := GoVal.vint 0 }),
               ("GREEN", some { Value := GoVal.vint 1 })] }

/-- C7 setup: the enum built from `c7Config`. -/
def c7Enum : Enum := ((NewEnum c7Config).toOption).getD {}

/-- C7 witness: the round-trip theorem applied to a concrete enum. -/
theorem c7_witness :
    (c7Config.Values.map Prod.fst).Nodup
    ∧ c7Enum.err = none
    ∧ (c7Enum.values.map EnumValueDefinition.Value).Nodup
    ∧ c7Enum.ParseValue (GoVal.vstr "RED") = GoVal.vint 0
    ∧ c7Enum.Serialize (GoVal.vint 0) = GoVal.vstr "RED"
    ∧ c7Enum.ParseValue (GoVal.vstr "BLUE") = GoVal.vnil
    ∧ c7Enum.Serialize (GoVal.vint 7) = GoVal.vnil := by
  have hd : { Name := "RED", Value := GoVal.vint 0 : EnumValueDefinition } ∈ c7Enum.values := by
    decide
  obtain ⟨h1, h2, h3⟩ := c7_enum_roundtrip c7Config c7Enum rfl rfl (by decide) (by decide)
  refine ⟨by decide, rfl, by decide, ?_, ?_, ?_, ?_⟩
  · exact (h1 _ hd).1
  · exact (h1 _ hd).2
  · exact h2 "BLUE" (by decide)
  · exact h3 (GoVal.vint 7) (by decide)

/-
Claim C5. Union member validation in `defineUnionTypes` / `Union.Types`.
-/

/-- When every member is a non-nil object and the resolve-type condition is
satisfied for each, the union loop appends every member in order with no
error. -/
lemma defineUnionTypesLoop_all_ok (u : Union) :
    ∀ (l : List (Option Object)) (acc : List Object),
      (∀ x ∈ l, ∃ ob, x = some ob ∧ (u.ResolveType ≠ none ∨ ob.IsTypeOf ≠ none)) →
      defineUnionTypesLoop u l acc = (acc ++ l.filterMap id, none) := by
  intro l
  induction l with
  | nil => intro acc _; simp [defineUnionTypesLoop]
  | cons x rest ih =>
    intro acc h
    obtain ⟨ob, hx, hcond⟩ := h x (by simp)
    subst hx
    simp only [defineUnionTypesLoop]
    cases hrt : u.ResolveType with
    | some f =>
      simp only [hrt, Option.isNone_some, Bool.false_eq_true, if_false]
      rw [ih _ (fun y hy => h y (List.mem_cons_of_mem _ hy))]
      simp
    | none =>
      have hit : ob.IsTypeOf ≠ none := by
        rcases hcond with hc | hc
        · exact absurd hrt hc
        · exact hc
      have hit' : ob.IsTypeOf.isSome = true := Option.isSome_iff_ne_none.mpr hit
      simp only [hrt, Option.isNone_none, if_true]
      rw [invariantf_true _ hit']
      rw [ih _ (fun y hy => h y (List.mem_cons_of_mem _ hy))]
      simp

/-- When the union has no resolve-type function and some member lacks
`IsTypeOf`, the union loop reports an error. -/
lemma defineUnionTypesLoop_err (u : Union) (hrt : u.ResolveType = none) :
    ∀ (l : List (Option Object)) (acc : List Object) (ob : Object),
      some ob ∈ l → ob.IsTypeOf = none →
      (defineUnionTypesLoop u l acc).2 ≠ none := by
  intro l
  induction l with
  | nil => intro acc ob hm; simp at hm
  | cons x rest ih =>
    intro acc ob hm hit
    rcases List.mem_cons.mp hm with hx | hx
    · subst hx
      simp only [defineUnionTypesLoop, hrt, Option.isNone_none, if_true]
      rw [invariantf_false _ (by simp [hit])]
      simp
    · cases x with
      | none => simp [defineUnionTypesLoop, invariantf]
      | some o =>
        simp only [defineUnionTypesLoop, hrt, Option.isNone_none, if_true]
        cases ho : o.IsTypeOf.isSome with
        | false =>
          simp [invariantf]
        | true =>
          rw [invariantf_true _ rfl]
          exact ih _ ob hx hit

/-- A union factory with a valid name stores the configuration with no
error and uninitialized members. -/
lemma NewUnion_valid {config : UnionConfig} (h : nameRegExpMatches config.Name = true) :
    NewUnion config =
      { PrivateName := config.Name, PrivateDescription := config.Description,
        ResolveType := config.ResolveType, typeConfig := config,
        directives := config.Directives } := by
  have h1 : config.Name ≠ "" := nameRegExpMatches_ne_empty h
  simp [NewUnion, invariant, assertValidName, invariantf, bne_iff_ne, h1, h]

/-- C5: for a union with a valid name configured with a direct member
slice: if it has no resolve-type function and some member object lacks
`IsTypeOf`, the materialized union's error is non-nil; conversely, if every
member is a non-nil object, the member list is non-empty, and either a
resolve-type function is present or every member has `IsTypeOf`, then
`Types` returns exactly the configured members in order and the error is
nil. -/
theorem c5_union_member_validation (config : UnionConfig) (l : List (Option Object))
    (hname : nameRegExpMatches config.Name = true)
    (hl : config.Types = UnionTypesCfgS.objList l) :
    (config.ResolveType = none →
      (∃ ob : Object, some ob ∈ l ∧ ob.IsTypeOf = none) →
      ((NewUnion config).Types).2.1.err ≠ none)
    ∧ ((∀ x ∈ l, ∃ ob : Object, x = some ob) →
       (config.ResolveType ≠ none ∨ (∀ ob : Object, some ob ∈ l → ob.IsTypeOf ≠ none)) →
       l ≠ [] →
       ((NewUnion config).Types).1 = some (l.filterMap id)
       ∧ ((NewUnion config).Types).2.1.err = none) := by
  rw [NewUnion_valid hname]
  unfold Union.Types
  dsimp only
  rw [hl]
  dsimp only
  unfold Union.finishTypes defineUnionTypes
  dsimp only
  constructor
  · intro hrt hbad
    obtain ⟨ob, hmem, hit⟩ := hbad
    have hlen : 0 < l.length := List.length_pos.mpr (by rintro rfl; simp at hmem)
    rw [invariantf_true _ (by simpa using hlen)]
    dsimp only
    rcases hloop : defineUnionTypesLoop
        { PrivateName := config.Name, PrivateDescription := config.Description,
          ResolveType := config.ResolveType, typeConfig := config,
          directives := config.Directives } l [] with ⟨types, err⟩
    have := defineUnionTypesLoop_err
        { PrivateName := config.Name, PrivateDescription := config.Description,
          ResolveType := config.ResolveType, typeConfig := config,
          directives := config.Directives } hrt l [] ob hmem hit
    rw [hloop] at this
    simpa using this
  · intro hall hcond hne
    have hlen : 0 < l.length := List.length_pos.mpr hne
    rw [invariantf_true _ (by simpa using hlen)]
    dsimp only
    rw [defineUnionTypesLoop_all_ok _ l [] (by
      intro x hx
      obtain ⟨ob, hob⟩ := hall x hx
      refine ⟨ob, hob, ?_⟩
      rcases hcond with hc | hc
      · exact Or.inl hc
      · exact Or.inr (hc ob (hob ▸ hx)))]
    exact ⟨rfl, rfl⟩

/-- C5 setup: a member object carrying an `IsTypeOf` function. -/
def c5Member : Object :=
  NewObject { Name := "Dog", IsTypeOf := some () }

/-- C5 setup: a union over the one member. -/
def c5Config : UnionConfig :=
  { Name := "Pet", Types := UnionTypesCfgS.objList [some c5Member] }

/-- C5 witness: the theorem applied to a concrete union whose single member
provides `IsTypeOf`. -/
theorem c5_witness :
    nameRegExpMatches "Pet" = true
    ∧ c5Config.Types = UnionTypesCfgS.objList [some c5Member]
    ∧ ((NewUnion c5Config).Types).1 = some [c5Member]
    ∧ ((NewUnion c5Config).Types).2.1.err = none := by
  have h := (c5_union_member_validation c5Config [some c5Member] (by decide) rfl).2
    (by intro x hx; simp at hx; exact ⟨c5Member, hx⟩)
    (Or.inr (by
      intro ob hob hit
      simp only [List.mem_singleton, Option.some.injEq] at hob
      subst hob
      exact absurd hit (by decide)))
    (by simp)
  exact ⟨by decide, rfl, by simpa using h.1, h.2⟩

/-
Claim C2. `defineFieldMap` only checks that each field's type is non-nil
and carries no embedded error; it never calls `IsOutputType`, so a
successfully materialized field map may hold a non-output type (in Go,
`*InputObject` satisfies the `Output` interface structurally and is
accepted).
-/

/-- Every field definition produced by the field loop has a non-nil type
whose own error is nil, provided the loop finished without error and the
accumulator already satisfied this. -/
lemma defineFieldMapLoop_types (s : String) :
    ∀ (l : Fields) (acc res : FieldDefinitionMap),
      defineFieldMapLoop s l acc = (res, none) →
      (∀ p ∈ acc, ∃ t, p.2.Type' = some t ∧ t.Error = none) →
      ∀ p ∈ res, ∃ t, p.2.Type' = some t ∧ t.Error = none := by
  intro l
  induction l with
  | nil =>
    intro acc res h hacc
    simp only [defineFieldMapLoop, Prod.mk.injEq] at h
    rw [← h.1]
    exact hacc
  | cons e rest ih =>
    intro acc res h hacc
    rcases e with ⟨fn, f?⟩
    cases f? with
    | none =>
      simp only [defineFieldMapLoop] at h
      exact ih _ _ h hacc
    | some f =>
      simp only [defineFieldMapLoop] at h
      split at h
      · simp [invariantf] at h
      · rename_i ftype hft
        split at h
        · simp at h
        · rename_i herrt
          split at h
          · simp at h
          · split at h
            · simp at h
            · rename_i args hargs
              refine ih _ _ h ?_
              intro p hp
              rcases mapInsert_mem _ _ _ _ hp with hpv | hpv
              · subst hpv
                exact ⟨ftype, rfl, herrt⟩
              · exact hacc p hpv

/-- `defineFieldMap` without error yields only fields with a non-nil,
error-free type. -/
lemma defineFieldMap_types (s : String) (m : Fields)
    (h : (defineFieldMap s m).2 = none) :
    ∀ p ∈ (defineFieldMap s m).1, ∃ t, p.2.Type' = some t ∧ t.Error = none := by
  rcases hdm : defineFieldMap s m with ⟨res, err⟩
  rw [hdm] at h
  dsimp only at h ⊢
  subst h
  unfold defineFieldMap at hdm
  split at hdm
  · simp at hdm
  · exact defineFieldMapLoop_types s m [] res hdm (by simp)

/-- A freshly constructed object has uninitialized, empty caches. -/
lemma NewObject_fresh (config : ObjectConfig) :
    (NewObject config).initialisedFields = false
    ∧ (NewObject config).fields = none
    ∧ (NewObject config).initialisedInterfaces = false
    ∧ (NewObject config).interfaces = none := by
  unfold NewObject
  dsimp only
  refine ⟨?_, ?_, ?_, ?_⟩
  all_goals
    split
    · rfl
    · split <;> rfl

/-- A freshly constructed interface has an uninitialized, empty cache. -/
lemma NewInterface_fresh (config : InterfaceConfig) :
    (NewInterface config).initialisedFields = false
    ∧ (NewInterface config).fields = none := by
  unfold NewInterface
  dsimp only
  refine ⟨?_, ?_⟩
  all_goals
    split
    · rfl
    · split <;> rfl

/-- A freshly constructed union has an uninitialized, empty cache. -/
lemma NewUnion_fresh (config : UnionConfig) :
    (NewUnion config).initalizedTypes = false
    ∧ (NewUnion config).types = none := by
  unfold NewUnion
  dsimp only
  refine ⟨?_, ?_⟩
  all_goals
    split
    · rfl
    · split <;> rfl

/-- A freshly constructed input object has an uninitialized cache. -/
lemma NewInputObject_fresh (config : InputObjectConfig) :
    (NewInputObject config).init = false
    ∧ (NewInputObject config).fields = none := by
  unfold NewInputObject
  dsimp only
  refine ⟨?_, ?_⟩
  all_goals (split <;> rfl)

/-- Field materialization on an uninitialized object that reports no error
yields only fields with a non-nil, error-free type. -/
lemma object_fields_types (gt : Object) (h0 : gt.initialisedFields = false)
    (herr : (gt.Fields).2.1.err = none) :
    ∀ p ∈ ((gt.Fields).1).getD [], ∃ t, p.2.Type' = some t ∧ t.Error = none := by
  unfold Object.Fields at herr ⊢
  simp only [h0, Bool.false_eq_true, if_false] at herr ⊢
  cases hc : gt.typeConfig.Fields with
  | fieldsMap m =>
    rw [hc] at herr
    dsimp only [Object.finishFields] at herr ⊢
    exact fun p hp => defineFieldMap_types gt.PrivateName m herr p (by simpa using hp)
  | thunk f =>
    rw [hc] at herr
    dsimp only [Object.finishFields] at herr ⊢
    exact fun p hp => defineFieldMap_types gt.PrivateName (f ()) herr p (by simpa using hp)
  | errThunk f =>
    rw [hc] at herr
    dsimp only [Object.finishFields] at herr ⊢
    cases hf : f () with
    | error e =>
      rw [hf] at herr
      simp at herr
    | ok m =>
      rw [hf] at herr
      dsimp only at herr ⊢
      exact fun p hp => defineFieldMap_types gt.PrivateName m herr p (by simpa using hp)
  | nilCfg =>
    rw [hc] at herr
    dsimp only [Object.finishFields] at herr
    simp [defineFieldMap, invariantf] at herr

/-- Field materialization on an uninitialized interface that reports no
error yields only fields with a non-nil, error-free type. -/
lemma interface_fields_types (it : Interface) (h0 : it.initialisedFields = false)
    (herr : (it.Fields).2.1.err = none) :
    ∀ p ∈ ((it.Fields).1).getD [], ∃ t, p.2.Type' = some t ∧ t.Error = none := by
  unfold Interface.Fields at herr ⊢
  simp only [h0, Bool.false_eq_true, if_false] at herr ⊢
  cases hc : it.typeConfig.Fields with
  | fieldsMap m =>
    rw [hc] at herr
    dsimp only [Interface.finishFields] at herr ⊢
    exact fun p hp => defineFieldMap_types it.PrivateName m herr p (by simpa using hp)
  | thunk f =>
    rw [hc] at herr
    dsimp only [Interface.finishFields] at herr ⊢
    exact fun p hp => defineFieldMap_types it.PrivateName (f ()) herr p (by simpa using hp)
  | errThunk f =>
    rw [hc] at herr
    dsimp only [Interface.finishFields] at herr ⊢
    cases hf : f () with
    | error e =>
      rw [hf] at herr
      simp at herr
    | ok m =>
      rw [hf] at herr
      dsimp only at herr ⊢
      exact fun p hp => defineFieldMap_types it.PrivateName m herr p (by simpa using hp)
  | nilCfg =>
    rw [hc] at herr
    dsimp only [Interface.finishFields] at herr
    simp [defineFieldMap, invariantf] at herr

/-- C2 setup: an input object with a nil embedded error. -/
def c2Input : InputObject := NewInputObject { Name := "SomeInput" }

/-- C2 setup: an object whose single field is typed by the input object;
in Go, `Field.Type` is the structural `Output` interface, which
`*InputObject` satisfies. -/
def c2Obj : Object :=
  NewObject
    { Name := "Query"
      Fields := FieldsCfgS.fieldsMap
        [("inp", some { Type' := some (GType.inputObject c2Input) })] }

/-- C2 setup: the field definition materialized for the `inp` field. -/
def c2FieldDef : FieldDefinitionS GType :=
  { Name := "inp", Type' := some (GType.inputObject c2Input) }

/-- C2 counterexample: the object's field map materializes with a nil
error, yet the single field's type is an InputObject, for which
`IsOutputType` is false. -/
theorem c2_counterexample :
    ((c2Obj.Fields).2.1).err = none
    ∧ ((c2Obj.Fields).1).getD [] = [("inp", c2FieldDef)]
    ∧ IsOutputType c2FieldDef.Type' = false :=
  ⟨rfl, rfl, rfl⟩

/-- C2 (amended): for every Object and Interface whose field map has been
materialized with a nil error, every field's declared type is non-nil and
itself carries a nil embedded error; whether the type is an output type is
not checked, so a non-output named type such as an InputObject may occur. -/
theorem c2_field_types_materialized :
    (∀ config : ObjectConfig, ((NewObject config).Fields).2.1.err = none →
      ∀ p ∈ (((NewObject config).Fields).1).getD [],
        ∃ t, p.2.Type' = some t ∧ t.Error = none)
    ∧ (∀ config : InterfaceConfig, ((NewInterface config).Fields).2.1.err = none →
      ∀ p ∈ (((NewInterface config).Fields).1).getD [],
        ∃ t, p.2.Type' = some t ∧ t.Error = none) :=
  ⟨fun config herr => object_fields_types _ (NewObject_fresh config).1 herr,
   fun config herr => interface_fields_types _ (NewInterface_fresh config).1 herr⟩

/-- C2 setup: an object with one Boolean-typed field. -/
def c2OkCfg : ObjectConfig :=
  { Name := "Q2"
    Fields := FieldsCfgS.fieldsMap
      [("s", some { Type' := some (GType.scalar BooleanScalar) })] }

/-- C2 setup: the field definition materialized for the `s` field. -/
def c2OkFieldDef : FieldDefinitionS GType :=
  { Name := "s", Type' := some (GType.scalar BooleanScalar) }

/-- C2 witness: the amended theorem applied to a concrete object. -/
theorem c2_witness :
    ((NewObject c2OkCfg).Fields).2.1.err = none
    ∧ ∃ t, c2OkFieldDef.Type' = some t ∧ t.Error = none :=
  ⟨rfl,
   c2_field_types_materialized.1 c2OkCfg rfl ("s", c2OkFieldDef) (by
     rw [show (((NewObject c2OkCfg).Fields).1).getD [] = [("s", c2OkFieldDef)] from rfl]
     exact List.mem_singleton.mpr rfl)⟩

/-
Claim C4. Object, Interface and Union set their initialized flag on every
path through the materializing call, so a second call returns the cached
result (the same map, the same state, and so the same error) without
invoking any thunk. `InputObject.defineFieldMap`, however, sets `init` only
when the whole loop succeeds: after a failed materialization every later
`Fields()` call re-invokes the thunk.
-/

/-- After one `Fields` call on a fresh object, a second call returns the
first call's result and state unchanged and invokes no thunk. -/
lemma object_fields_cached (gt : Object) (h0 : gt.initialisedFields = false)
    (h1 : gt.fields = none) :
    (gt.Fields).2.2 ≤ 1
    ∧ (gt.Fields).2.1.Fields = ((gt.Fields).1, (gt.Fields).2.1, 0) := by
  unfold Object.Fields
  simp only [h0, Bool.false_eq_true, if_false]
  cases hc : gt.typeConfig.Fields with
  | fieldsMap m => exact ⟨Nat.zero_le 1, rfl⟩
  | thunk f => exact ⟨le_refl 1, rfl⟩
  | errThunk f =>
    dsimp only
    cases hf : f () with
    | error e =>
      refine ⟨le_refl 1, ?_⟩
      dsimp only
      rw [h1]
      rfl
    | ok m => exact ⟨le_refl 1, rfl⟩
  | nilCfg => exact ⟨Nat.zero_le 1, rfl⟩

/-- After one `Interfaces` call on a fresh object, a second call returns
the first call's result and state unchanged and invokes no thunk. -/
lemma object_interfaces_cached (gt : Object) (h0 : gt.initialisedInterfaces = false)
    (h1 : gt.interfaces = none) :
    (gt.Interfaces).2.2 ≤ 1
    ∧ (gt.Interfaces).2.1.Interfaces = ((gt.Interfaces).1, (gt.Interfaces).2.1, 0) := by
  unfold Object.Interfaces
  simp only [h0, Bool.false_eq_true, if_false]
  cases hc : gt.typeConfig.Interfaces with
  | ifaceList l => exact ⟨Nat.zero_le 1, rfl⟩
  | thunk f => exact ⟨le_refl 1, rfl⟩
  | errThunk f =>
    dsimp only
    cases hf : f () with
    | error e =>
      refine ⟨le_refl 1, ?_⟩
      dsimp only
      rw [h1]
      rfl
    | ok l => exact ⟨le_refl 1, rfl⟩
  | nilCfg => exact ⟨Nat.zero_le 1, rfl⟩
  | otherCfg =>
    refine ⟨Nat.zero_le 1, ?_⟩
    dsimp only
    rw [h1]
    rfl

/-- After one `Fields` call on a fresh interface, a second call returns the
first call's result and state unchanged and invokes no thunk. -/
lemma interface_fields_cached (it : Interface) (h0 : it.initialisedFields = false)
    (h1 : it.fields = none) :
    (it.Fields).2.2 ≤ 1
    ∧ (it.Fields).2.1.Fields = ((it.Fields).1, (it.Fields).2.1, 0) := by
  unfold Interface.Fields
  simp only [h0, Bool.false_eq_true, if_false]
  cases hc : it.typeConfig.Fields with
  | fieldsMap m => exact ⟨Nat.zero_le 1, rfl⟩
  | thunk f => exact ⟨le_refl 1, rfl⟩
  | errThunk f =>
    dsimp only
    cases hf : f () with
    | error e =>
      refine ⟨le_refl 1, ?_⟩
      dsimp only
      rw [h1]
      rfl
    | ok m => exact ⟨le_refl 1, rfl⟩
  | nilCfg => exact ⟨Nat.zero_le 1, rfl⟩

/-- After one `Types` call on a fresh union, a second call returns the
first call's result and state unchanged and invokes no thunk. -/
lemma union_types_cached (ut : Union) (h0 : ut.initalizedTypes = false)
    (h1 : ut.types = none) :
    (ut.Types).2.2 ≤ 1
    ∧ (ut.Types).2.1.Types = ((ut.Types).1, (ut.Types).2.1, 0) := by
  unfold Union.Types
  simp only [h0, Bool.false_eq_true, if_false]
  cases hc : ut.typeConfig.Types with
  | objList l => exact ⟨Nat.zero_le 1, rfl⟩
  | thunk f => exact ⟨le_refl 1, rfl⟩
  | errThunk f =>
    dsimp only
    cases hf : f () with
    | error e =>
      refine ⟨le_refl 1, ?_⟩
      dsimp only
      rw [h1]
      rfl
    | ok l => exact ⟨le_refl 1, rfl⟩
  | nilCfg => exact ⟨Nat.zero_le 1, rfl⟩
  | otherCfg =>
    refine ⟨Nat.zero_le 1, ?_⟩
    dsimp only
    rw [h1]
    rfl

/-- `inputFinish` passes its thunk count through unchanged. -/
lemma InputObject.inputFinish_calls (gt : InputObject)
    (m : InputObjectConfigFieldMap) (calls : Nat) :
    (gt.inputFinish m calls).2.2 = calls := by
  unfold InputObject.inputFinish
  split
  · rfl
  · split <;> rfl

/-- One `Fields` call invokes at most one thunk. -/
lemma InputObject.fields_calls (gt : InputObject) : (gt.Fields).2.2 ≤ 1 := by
  unfold InputObject.Fields
  by_cases h : gt.init
  · simp [h]
  · have h' : gt.init = false := by simpa using h
    simp only [h', Bool.not_false, if_true]
    show (gt.defineFieldMap).2.2 ≤ 1
    unfold InputObject.defineFieldMap
    cases hc : gt.typeConfig.Fields with
    | fieldsMap m =>
      rw [InputObject.inputFinish_calls]
      exact Nat.zero_le 1
    | thunk f =>
      rw [InputObject.inputFinish_calls]
    | errThunk f =>
      dsimp only
      cases hf : f () with
      | error e => exact le_refl 1
      | ok m => rw [InputObject.inputFinish_calls]
    | nilCfg =>
      rw [InputObject.inputFinish_calls]
      exact Nat.zero_le 1

/-- A `Fields` call on an input object whose cache is initialized returns
the cache and invokes no thunk. -/
lemma InputObject.fields_of_init (gt : InputObject) (h : gt.init = true) :
    gt.Fields = (gt.fields, gt, 0) := by
  unfold InputObject.Fields
  simp [h]

/-- The first component of a `Fields` call is always the updated receiver's
cache field. -/
lemma InputObject.fields_fst (gt : InputObject) :
    (gt.Fields).1 = (gt.Fields).2.1.fields := by
  unfold InputObject.Fields
  by_cases h : gt.init
  · simp [h]
  · have h' : gt.init = false := by simpa using h
    simp [h']

/-- C4 (amended): for every Object (fields and interfaces), Interface and
Union built by its factory, the materializing call invokes the configured
thunk at most once and a second call returns the first call's result and
state — including any recorded thunk error — with no further thunk
invocation. For an InputObject the same holds only when the first call left
`init` set, i.e. materialization succeeded; its failure paths do not set
`init`. -/
theorem c4_thunk_caching :
    (∀ config : ObjectConfig,
      ((NewObject config).Fields).2.2 ≤ 1
      ∧ ((NewObject config).Fields).2.1.Fields
          = (((NewObject config).Fields).1, ((NewObject config).Fields).2.1, 0))
    ∧ (∀ config : ObjectConfig,
      ((NewObject config).Interfaces).2.2 ≤ 1
      ∧ ((NewObject config).Interfaces).2.1.Interfaces
          = (((NewObject config).Interfaces).1, ((NewObject config).Interfaces).2.1, 0))
    ∧ (∀ config : InterfaceConfig,
      ((NewInterface config).Fields).2.2 ≤ 1
      ∧ ((NewInterface config).Fields).2.1.Fields
          = (((NewInterface config).Fields).1, ((NewInterface config).Fields).2.1, 0))
    ∧ (∀ config : UnionConfig,
      ((NewUnion config).Types).2.2 ≤ 1
      ∧ ((NewUnion config).Types).2.1.Types
          = (((NewUnion config).Types).1, ((NewUnion config).Types).2.1, 0))
    ∧ (∀ config : InputObjectConfig,
      ((NewInputObject config).Fields).2.2 ≤ 1
      ∧ (((NewInputObject config).Fields).2.1.init = true →
          ((NewInputObject config).Fields).2.1.Fields
            = (((NewInputObject config).Fields).1,
               ((NewInputObject config).Fields).2.1, 0))) := by
  refine ⟨?_, ?_, ?_, ?_, ?_⟩
  · intro config
    exact object_fields_cached _ (NewObject_fresh config).1 (NewObject_fresh config).2.1
  · intro config
    exact object_interfaces_cached _ (NewObject_fresh config).2.2.1
      (NewObject_fresh config).2.2.2
  · intro config
    exact interface_fields_cached _ (NewInterface_fresh config).1
      (NewInterface_fresh config).2
  · intro config
    exact union_types_cached _ (NewUnion_fresh config).1 (NewUnion_fresh config).2
  · intro config
    refine ⟨InputObject.fields_calls _, ?_⟩
    intro hinit
    rw [InputObject.fields_of_init _ hinit, InputObject.fields_fst]

/-- C4 setup: an input object whose field thunk fails. -/
def c4Input : InputObject :=
  NewInputObject
    { Name := "In", Fields := InputFieldsCfgS.errThunk (fun _ => .error "boom") }

/-- C4 counterexample: after a failed materialization, `init` is still
false, so the second `Fields` call invokes the thunk again — one invocation
per call, two across two calls — contradicting invoked-at-most-once. The
recorded error is the wrapped thunk error both times. -/
theorem c4_counterexample :
    (c4Input.Fields).2.2 = 1
    ∧ (((c4Input.Fields).2.1).Fields).2.2 = 1
    ∧ (c4Input.Fields).2.1.init = false
    ∧ (c4Input.Fields).2.1.err = some "error while resolving fields for In: boom" :=
  ⟨rfl, rfl, rfl, rfl⟩

/-- C4 setup: an input object with one well-typed field. -/
def c4OkCfg : InputObjectConfig :=
  { Name := "In2"
    Fields := InputFieldsCfgS.fieldsMap
      [("x", some { Type' := some (GType.scalar BooleanScalar) })] }

/-- C4 witness: the amended theorem applied to a concrete input object
whose materialization succeeds, discharging the `init = true` hypothesis. -/
theorem c4_witness :
    ((NewInputObject c4OkCfg).Fields).2.1.init = true
    ∧ ((NewInputObject c4OkCfg).Fields).2.1.Fields
        = (((NewInputObject c4OkCfg).Fields).1,
           ((NewInputObject c4OkCfg).Fields).2.1, 0) :=
  ⟨rfl, (c4_thunk_caching.2.2.2.2 c4OkCfg).2 rfl⟩

/-- C10 witness: the theorem applied to a scalar with only a serialize
function. -/
theorem c10_witness :
    nameRegExpMatches "Odd" = true
    ∧ (NewScalar { Name := "Odd", Serialize := some (fun v => v) }).err = none
    ∧ (NewScalar { Name := "Odd", Serialize := some (fun v => v) }).ParseLiteral
        (AstValue.enumValue "x") = GoVal.vnil
    ∧ (NewScalar { Name := "Odd", Serialize := some (fun v => v) }).ParseValue
        (GoVal.vint 3) = GoVal.vint 3 :=
  ⟨by decide, rfl,
   (c10_scalar_pairing { Name := "Odd", Serialize := some (fun v => v) }
     (by decide)).2.2.1 rfl rfl _,
   (c10_scalar_pairing { Name := "Odd", Serialize := some (fun v => v) }
     (by decide)).2.2.2.1 rfl rfl _⟩

end GraphQL
